import Mathlib

/-!
# Verification of the Smartcat Visual Analyzer segmentation engine

Shallow embedding of the segmentation/merge engine of the repository
(`src/server/segmentation-engine.js` and `src/server/visual-analyzer.js`)
together with proofs of the frozen claims about it.

Modelling conventions:

* JavaScript numbers are modelled as exact rationals (`ℚ`).  The engine's
  arithmetic is plain +, -, *, min, max and comparisons, which agree with
  exact rational arithmetic on the magnitudes involved; the one place where
  IEEE special values matter (division producing `NaN`/`Infinity` in
  `calculateContextScore`) is modelled explicitly by the `JSNum` type below.
* `Math.sqrt(d) < t` (for a nonnegative radicand `d` and positive threshold
  `t`) is modelled as `d < t*t`, which is equivalent by monotonicity of the
  square root; the distance helpers therefore return the squared distance.
* JavaScript strings are Lean `String`s; `String.prototype.includes` is the
  substring test `strIncludes` below, `toLowerCase` maps `Char.toLower` over
  the characters, and `.length`/template-literal number printing agree with
  `String.length`/decimal printing on the texts involved.
* Objects are structures; fields that can be `undefined` in JS are `Option`s
  (with the JS `x || d` default idiom modelled by `jsNumOr` for numbers,
  which also treats `0` as falsy, and `Option.getD` for booleans).
-/

/-- An axis-aligned bounding box `{x, y, width, height}`. -/
structure Box where
  x : ℚ
  y : ℚ
  width : ℚ
  height : ℚ
deriving DecidableEq

/-- A text fragment (`textElement`) as consumed by the engine: an id, its
text, its bounding box, and the optional style hints used by the classifier. -/
structure Element where
  id : String
  text : String
  boundingBox : Box
  fontSize : Option ℚ
  isBold : Option Bool
deriving DecidableEq

/-- A visual context (layout region) as consumed by the engine. -/
structure VisualContext where
  id : String
  type_ : String
  boundingBox : Box
  topic : Option String
  semanticContext : Option String
deriving DecidableEq

/-- JS `x || d` for a possibly-undefined number `x`: `undefined` and `0` are
falsy, so both fall back to the default. -/
def jsNumOr (x : Option ℚ) (d : ℚ) : ℚ :=
  match x with
  | none => d
  | some v => if v = 0 then d else v

/-- JS `s.toLowerCase()` (restricted to the per-character lowering that the
engine's ASCII-and-bullet texts exercise). -/
def jsToLower (s : String) : String :=
  String.mk (s.data.map Char.toLower)

/-- Substring occurrence on character lists: `needle` occurs somewhere in
`hay`. -/
def listIncludes [DecidableEq α] (needle hay : List α) : Bool :=
  match hay with
  | [] => needle.isEmpty
  | _ :: t => needle.isPrefixOf hay || listIncludes needle t

/-- JS `hay.includes(needle)` for strings. -/
def strIncludes (hay needle : String) : Bool :=
  listIncludes needle.data hay.data

/-- The mojibake bullet string `'â€¢'` that
`segmentation-engine.js` line 262 actually compares against: the UTF-8 bytes
of `•` (E2 80 A2) decoded as Latin-1/Windows-1252. -/
def mojibakeBullet : String :=
  String.mk [Char.ofNat 0xE2, Char.ofNat 0x20AC, Char.ofNat 0xA2]

/-- `SegmentationEngine.inferVisualContext` (segmentation-engine.js,
lines 249–273): the heuristic fallback classifier.  Note that the bullet
check on line 262 tests for the mojibake sequence `'â€¢'`, not for `'•'`. -/
def inferVisualContext (element : Element) : String :=
  let text := jsToLower element.text
  let fontSize := jsNumOr element.fontSize 12
  let isBold := element.isBold.getD false
  if (fontSize ≥ 20 ∨ isBold = true) ∧ text.length < 100 ∧ strIncludes text "." = false then
    "title_group"
  else if strIncludes text mojibakeBullet || strIncludes text "-" || strIncludes text "*" then
    "bullet_list"
  else if text.length < 200 ∧ (strIncludes text "figure" = true ∨ strIncludes text "table" = true) then
    "caption"
  else
    "body_text"

/-- `VisualAnalyzer.inferVisualContextType` (visual-analyzer.js,
lines 150–174): the analyzer's copy of the same heuristic, with the genuine
`'•'` bullet character. -/
def inferVisualContextType (element : Element) : String :=
  let text := jsToLower element.text
  let fontSize := jsNumOr element.fontSize 12
  let isBold := element.isBold.getD false
  if (fontSize ≥ 20 ∨ isBold = true) ∧ text.length < 100 ∧ strIncludes text "." = false then
    "title_group"
  else if strIncludes text "•" || strIncludes text "-" || strIncludes text "*" then
    "bullet_list"
  else if text.length < 200 ∧ (strIncludes text "figure" = true ∨ strIncludes text "table" = true) then
    "caption"
  else
    "body_text"

/-- `calculateOverlap` (segmentation-engine.js, lines 143–153): area of the
intersection rectangle, `0` when the boxes do not overlap. -/
def calculateOverlap (box1 box2 : Box) : ℚ :=
  let left := max box1.x box2.x
  let right := min (box1.x + box1.width) (box2.x + box2.width)
  let top := max box1.y box2.y
  let bottom := min (box1.y + box1.height) (box2.y + box2.height)
  if left < right ∧ top < bottom then (right - left) * (bottom - top) else 0

/-- `isWithinBounds` (segmentation-engine.js, lines 161–166): containment
with non-strict edge comparisons. -/
def isWithinBounds (elementBox contextBox : Box) : Bool :=
  decide (elementBox.x ≥ contextBox.x) &&
  decide (elementBox.y ≥ contextBox.y) &&
  decide (elementBox.x + elementBox.width ≤ contextBox.x + contextBox.width) &&
  decide (elementBox.y + elementBox.height ≤ contextBox.y + contextBox.height)

/-- `Math.min(...list)` for the non-empty argument lists the engine builds
(the `[]` case is unreachable behind the emptiness guard of
`calculateCombinedBoundingBox`). -/
def listMin : List ℚ → ℚ
  | [] => 0
  | [a] => a
  | a :: b :: t => min a (listMin (b :: t))

/-- `Math.max(...list)` for non-empty argument lists. -/
def listMax : List ℚ → ℚ
  | [] => 0
  | [a] => a
  | a :: b :: t => max a (listMax (b :: t))

/-- `calculateCombinedBoundingBox` (segmentation-engine.js, lines 280–296):
minimal bounding box of a list of boxes, `{0,0,0,0}` for the empty list.
The JS function receives objects and reads `el.boundingBox`; call sites of
this model map that projection over the list first. -/
def calculateCombinedBoundingBox (boxes : List Box) : Box :=
  if boxes.isEmpty then ⟨0, 0, 0, 0⟩
  else
    let minX := listMin (boxes.map (·.x))
    let minY := listMin (boxes.map (·.y))
    let maxX := listMax (boxes.map fun b => b.x + b.width)
    let maxY := listMax (boxes.map fun b => b.y + b.height)
    ⟨minX, minY, maxX - minX, maxY - minY⟩

/-- Squared centroid distance between two boxes: the radicand of
`calculateDistance`/`calculateSegmentDistance`/`calculateElementDistance`
(the engine compares the square root against positive constants, which is
equivalent to comparing this value against the squared constants). -/
def centroidDistSq (box1 box2 : Box) : ℚ :=
  let c1x := box1.x + box1.width / 2
  let c1y := box1.y + box1.height / 2
  let c2x := box2.x + box2.width / 2
  let c2y := box2.y + box2.height / 2
  (c1x - c2x) * (c1x - c2x) + (c1y - c2y) * (c1y - c2y)

/-- A JavaScript number as produced by `calculateContextScore`: either a
finite value, an infinity, or `NaN`.  Needed because the score divides by
`Math.max(elementArea, contextArea)`, which can be `0`. -/
inductive JSNum where
  | nan : JSNum
  | posInf : JSNum
  | negInf : JSNum
  | fin : ℚ → JSNum
deriving DecidableEq

/-- JS division `a / b` of finite values: finite quotient when `b ≠ 0`,
signed infinity for `a ≠ 0, b = 0`, and `NaN` for `0 / 0`. -/
def jsDiv (a b : ℚ) : JSNum :=
  if b ≠ 0 then .fin (a / b)
  else if a > 0 then .posInf
  else if a < 0 then .negInf
  else .nan

/-- JS addition of a finite number to a `JSNum`. -/
def jsAddFin (a : JSNum) (q : ℚ) : JSNum :=
  match a with
  | .nan => .nan
  | .posInf => .posInf
  | .negInf => .negInf
  | .fin p => .fin (p + q)

/-- JS `>` on numbers: any comparison involving `NaN` is `false`. -/
def jsGt (a b : JSNum) : Bool :=
  match a, b with
  | .nan, _ => false
  | _, .nan => false
  | .posInf, .posInf => false
  | .posInf, _ => true
  | .negInf, _ => false
  | .fin _, .posInf => false
  | .fin _, .negInf => true
  | .fin p, .fin q => decide (p > q)

/-- Tokens of JS `s.split(/[\s\-_]+/)`: whitespace, hyphen or underscore. -/
def isSepChar (c : Char) : Bool :=
  c.isWhitespace || c = '-' || c = '_'

/-- JS `String.prototype.split` on the regex `/[\s\-_]+/`: maximal separator
runs delimit the tokens; leading/trailing runs contribute empty tokens, and
the empty string splits to `[""]`. -/
def splitSepRuns (l : List Char) : List (List Char) :=
  let first := l.takeWhile (fun c => !isSepChar c)
  let rest := l.dropWhile (fun c => !isSepChar c)
  match h : rest with
  | [] => [first]
  | c :: t =>
    have : t.length < l.length := by
      have h1 : rest.length ≤ l.length :=
        (List.dropWhile_sublist (fun c => !isSepChar c)).length_le
      have h2 : rest.length = t.length + 1 := by rw [h]; simp
      omega
    first :: splitSepRuns (t.dropWhile isSepChar)
termination_by l.length
decreasing_by
  have h3 : (t.dropWhile isSepChar).length ≤ t.length :=
    (List.dropWhile_sublist isSepChar).length_le
  omega

/-- `calculateSemanticSimilarity` (segmentation-engine.js, lines 522–551):
fraction of topic/semantic-context tokens of length `> 2` occurring in the
lowercased element text, scaled by `0.2`.  JS truthiness of
`context.topic`/`element.text` (absent or empty ⇒ falsy) gives the early
`0` returns. -/
def calculateSemanticSimilarity (element : Element) (context : VisualContext) : ℚ :=
  match context.topic with
  | none => 0
  | some topicStr =>
    if topicStr = "" ∨ element.text = "" then 0
    else
      let elementText := jsToLower element.text
      let topic := jsToLower topicStr
      let semanticContext :=
        match context.semanticContext with
        | some sc => jsToLower sc
        | none => ""
      let topicKeywords := splitSepRuns topic.data
      let contextKeywords := splitSepRuns semanticContext.data
      let countMatches : List (List Char) → ℕ := fun kws =>
        List.length (kws.filter fun kw =>
          decide (kw.length > 2) && listIncludes kw elementText.data)
      let matchCount : ℕ := countMatches topicKeywords + countMatches contextKeywords
      let totalKeywords : ℕ := topicKeywords.length + contextKeywords.length
      if totalKeywords > 0 then ((matchCount : ℚ) / (totalKeywords : ℚ)) * (2 / 10) else 0

/-- `calculateContextScore` (segmentation-engine.js, lines 115–135):
overlap ratio plus containment bonus plus semantic similarity.  The division
`overlap / Math.max(elementArea, contextArea)` is the one source of
non-finite values (`0 / 0 = NaN`), so the result is a `JSNum`. -/
def calculateContextScore (element : Element) (context : VisualContext) : JSNum :=
  let elementBox := element.boundingBox
  let contextBox := context.boundingBox
  let overlap := calculateOverlap elementBox contextBox
  let elementArea := elementBox.width * elementBox.height
  let contextArea := contextBox.width * contextBox.height
  let overlapScore := jsDiv overlap (max elementArea contextArea)
  let withinScore : ℚ := if isWithinBounds elementBox contextBox then 3 / 10 else 0
  let semanticScore := calculateSemanticSimilarity element context
  jsAddFin overlapScore (withinScore + semanticScore)

/-- Loop body of `findBestVisualContext` (segmentation-engine.js,
lines 94–107): fold over the contexts keeping the best (context, score)
pair, updating only on a strict `score > bestScore`. -/
def findBestAux (element : Element) :
    List VisualContext → Option VisualContext → JSNum → Option VisualContext × JSNum
  | [], best, bestScore => (best, bestScore)
  | context :: rest, best, bestScore =>
    let score := calculateContextScore element context
    if jsGt score bestScore then findBestAux element rest (some context) score
    else findBestAux element rest best bestScore

/-- `findBestVisualContext` (segmentation-engine.js, lines 94–107):
`bestContext` starts `null` and `bestScore` starts `0`. -/
def findBestVisualContext (element : Element) (visualContexts : List VisualContext) :
    Option VisualContext :=
  (findBestAux element visualContexts none (.fin 0)).1

/-- Decimal digit character (only applied to values `< 10`). -/
def digitChar : ℕ → Char
  | 0 => '0'
  | 1 => '1'
  | 2 => '2'
  | 3 => '3'
  | 4 => '4'
  | 5 => '5'
  | 6 => '6'
  | 7 => '7'
  | 8 => '8'
  | 9 => '9'
  | _ => '0'

/-- Decimal digits of a natural number, most significant first (the decimal
numeral that a JS template literal interpolates for a nonnegative integer). -/
def natDigits (n : ℕ) : List Char :=
  if h : n < 10 then [digitChar n]
  else
    have : n / 10 < n := Nat.div_lt_self (by omega) (by omega)
    natDigits (n / 10) ++ [digitChar (n % 10)]

/-- Decimal printing of a natural number, as a JS template literal does. -/
def natToString (n : ℕ) : String :=
  String.mk (natDigits n)

/-- Decimal printing of an integer. -/
def intToString (i : ℤ) : String :=
  if i < 0 then "-" ++ natToString i.natAbs else natToString i.natAbs

/-- Printing of the (rational-valued model of a) JS number, used only inside
generated segment-id strings before the final `_`; the proofs never depend
on this rendering, only on the counter after the id's last underscore. -/
def ratToString (q : ℚ) : String :=
  if q.den = 1 then intToString q.num
  else intToString q.num ++ "/" ++ natToString q.den

/-- A segment record as produced by the engine.  JS fields that a given
producer leaves `undefined` are `Option`/default-valued here (`isCombined`,
`elementCount`, `parentContextId`, `isMerged`, `originalSegments`). -/
structure Segment where
  id : String
  slideId : ℚ
  textElementId : String
  visualContextId : String
  coordinates : Box
  text : String
  visualContext : String
  confidence : String
  notes : String
  isCombined : Bool := false
  elementCount : Option ℕ := none
  parentContextId : Option String := none
  isMerged : Bool := false
  originalSegments : List String := []
deriving DecidableEq

instance : Inhabited Segment :=
  ⟨{ id := "", slideId := 0, textElementId := "", visualContextId := "",
     coordinates := ⟨0, 0, 0, 0⟩, text := "", visualContext := "",
     confidence := "", notes := "" }⟩

/-- A visual-context group as built by `groupElementsByVisualContext`
(segmentation-engine.js, lines 60–86): the context plus the elements
assigned to it, with the context's box/topic/semanticContext copied. -/
structure CtxGroup where
  context : VisualContext
  elements : List Element
  boundingBox : Box
  topic : Option String
  semanticContext : Option String
deriving DecidableEq

/-- `Map.prototype.set` semantics for the `contextGroups` map keyed by
`context.id`: overwrite in place if the key exists, append otherwise. -/
def upsertGroup (acc : List CtxGroup) (g : CtxGroup) : List CtxGroup :=
  if acc.any (fun h => h.context.id = g.context.id) then
    acc.map (fun h => if h.context.id = g.context.id then g else h)
  else acc ++ [g]

/-- CtxGroup initialisation loop of `groupElementsByVisualContext`
(segmentation-engine.js, lines 63–72). -/
def initGroups (visualContexts : List VisualContext) : List CtxGroup :=
  visualContexts.foldl
    (fun acc context =>
      upsertGroup acc
        { context, elements := [], boundingBox := context.boundingBox,
          topic := context.topic, semanticContext := context.semanticContext })
    []

/-- `contextGroups.get(cid).elements.push(element)`: append `e` to the
group keyed `cid` (the identity when no group has that key, which models the
`contextGroups.has(bestContext.id)` guard). -/
def pushElement (gs : List CtxGroup) (cid : String) (e : Element) : List CtxGroup :=
  gs.map (fun g =>
    if g.context.id = cid then { g with elements := g.elements ++ [e] } else g)

/-- Element-assignment loop of `groupElementsByVisualContext`
(segmentation-engine.js, lines 75–80). -/
def assignElements (ctxs : List VisualContext) (gs : List CtxGroup)
    (elements : List Element) : List CtxGroup :=
  elements.foldl
    (fun acc e =>
      match findBestVisualContext e ctxs with
      | some bestContext => pushElement acc bestContext.id e
      | none => acc)
    gs

/-- JS truthiness of an optional string (`undefined` and `""` are falsy). -/
def truthyStr (t : Option String) : Option String :=
  match t with
  | some s => if s = "" then none else some s
  | none => none

/-- `Map`-building step of `applySemanticGrouping`: group the context groups
by topic, preserving first-seen topic order and in-topic insertion order. -/
def insertTopicGroup : List (String × List CtxGroup) → String → CtxGroup → List (String × List CtxGroup)
  | [], t, g => [(t, [g])]
  | (t', gs) :: rest, t, g =>
    if t' = t then (t', gs ++ [g]) :: rest
    else (t', gs) :: insertTopicGroup rest t g

/-- The `topicGroups` map of `applySemanticGrouping`
(segmentation-engine.js, lines 461–471): only groups with a truthy `topic`. -/
def buildTopicGroups (gs : List CtxGroup) : List (String × List CtxGroup) :=
  gs.foldl
    (fun acc g =>
      match truthyStr g.topic with
      | none => acc
      | some t => insertTopicGroup acc t g)
    []

/-- One in-place merge step of `mergeSemanticGroups` (segmentation-engine.js,
lines 500–512): `group1.elements.push(...group2.elements)`, then the bounding
box is recomputed from `[...group1.elements, ...group2.elements]` (which at
that point already duplicates `group2`'s elements, exactly as the source
does), and `semanticContext` is relabelled. -/
def mergeTopicGroups (g1 g2 : CtxGroup) (topic : String) : CtxGroup :=
  let elements := g1.elements ++ g2.elements
  { g1 with
    elements,
    boundingBox := calculateCombinedBoundingBox ((elements ++ g2.elements).map (·.boundingBox)),
    semanticContext := some ("Combined " ++ topic ++ " context") }

/-- The splice loop of `mergeSemanticGroups` (segmentation-engine.js,
lines 494–513): adjacent pairs closer than `200` pixels (centroid distance,
squared here) merge into the left group and the loop retries at the same
index; the local array after the loop holds the surviving run heads. -/
def mergeSemanticLoop (topic : String) : List CtxGroup → List CtxGroup
  | [] => []
  | [g] => [g]
  | g1 :: g2 :: rest =>
    if centroidDistSq g1.boundingBox g2.boundingBox < 40000 then
      mergeSemanticLoop topic (mergeTopicGroups g1 g2 topic :: rest)
    else g1 :: mergeSemanticLoop topic (g2 :: rest)
termination_by l => l.length

/-- `mergeSemanticGroups` (segmentation-engine.js, lines 486–514).  The
source first calls `groups.sort((a, b) => calculateDistance(...))` with a
comparator that is never negative — an inconsistent comparator, for which
ECMAScript leaves the resulting order implementation-defined.  That sort is
therefore modelled by an explicit reorder function `oracle` (theorems that
need it assume `oracle` permutes its input). -/
def mergeSemanticGroups (oracle : List CtxGroup → List CtxGroup)
    (groups : List CtxGroup) (topic : String) : List CtxGroup :=
  mergeSemanticLoop topic (oracle groups)

/-- `applySemanticGrouping` (segmentation-engine.js, lines 460–479).  The
source mutates the run-head group objects in place; the spliced-away groups
are removed only from the per-topic local array and remain, unchanged, in
the `contextGroups` map.  This is modelled by computing the merged run heads
per topic and replacing exactly those entries (matched by context id) in the
group list. -/
def applySemanticGrouping (oracle : List CtxGroup → List CtxGroup)
    (contextGroups : List CtxGroup) : List CtxGroup :=
  let topicGroups := buildTopicGroups contextGroups
  let updates :=
    topicGroups.foldl
      (fun acc tg =>
        if tg.2.length > 1 then acc ++ mergeSemanticGroups oracle tg.2 tg.1 else acc)
      []
  contextGroups.map (fun g =>
    match updates.find? (fun u => u.context.id = g.context.id) with
    | some u => u
    | none => g)

/-- `groupElementsByVisualContext` (segmentation-engine.js, lines 60–86). -/
def groupElementsByVisualContext (oracle : List CtxGroup → List CtxGroup)
    (textElements : List Element) (visualContexts : List VisualContext) : List CtxGroup :=
  applySemanticGrouping oracle (assignElements visualContexts (initGroups visualContexts) textElements)

/-- Individual-segment loop of `createContextSegments`
(segmentation-engine.js, lines 202–217); threads the
`this.segmentIdCounter` state. -/
def createIndividualSegments (ctype : String) (slideId : ℚ) (contextId : String) :
    List Element → ℕ → ℕ → List Segment × ℕ
  | [], _, c => ([], c)
  | element :: rest, index, c =>
    let seg : Segment :=
      { id := "s" ++ ratToString slideId ++ "_vc" ++ contextId ++ "_elem" ++
              natToString index ++ "_" ++ natToString c,
        slideId, textElementId := element.id, visualContextId := contextId,
        coordinates := element.boundingBox, text := element.text,
        visualContext := ctype, confidence := "medium",
        notes := "Individual element within " ++ ctype ++ " context",
        isCombined := false, parentContextId := some contextId }
    let (restSegs, c') := createIndividualSegments ctype slideId contextId rest (index + 1) (c + 1)
    (seg :: restSegs, c')

/-- `createContextSegments` (segmentation-engine.js, lines 175–220): for a
non-empty group, one combined segment followed by one individual segment per
member element; `([], c)` for an empty group. -/
def createContextSegments (group : CtxGroup) (slideId : ℚ) (contextId : String)
    (c : ℕ) : List Segment × ℕ :=
  match group.elements with
  | [] => ([], c)
  | e :: es =>
    let elements := e :: es
    let combinedText := String.intercalate " " (elements.map (·.text))
    let combinedBoundingBox := calculateCombinedBoundingBox (elements.map (·.boundingBox))
    let combinedSegment : Segment :=
      { id := "s" ++ ratToString slideId ++ "_vc" ++ contextId ++ "_combined" ++
              "_" ++ natToString c,
        slideId, textElementId := "vc" ++ contextId ++ "_combined",
        visualContextId := contextId, coordinates := combinedBoundingBox,
        text := combinedText, visualContext := group.context.type_,
        confidence := "high",
        notes := "Combined " ++ group.context.type_ ++ " context with " ++
                 natToString elements.length ++ " elements",
        isCombined := true, elementCount := some elements.length }
    let (indiv, c') := createIndividualSegments group.context.type_ slideId contextId elements 0 (c + 1)
    (combinedSegment :: indiv, c')

/-- `createTextElementSegment` (segmentation-engine.js, lines 229–242): the
standalone per-element segment using the classifier fallback. -/
def createTextElementSegment (element : Element) (slideId : ℚ) (index : ℕ)
    (c : ℕ) : Segment × ℕ :=
  ({ id := "s" ++ ratToString slideId ++ "_elem" ++ natToString index ++
           "_" ++ natToString c,
     slideId, textElementId := element.id, visualContextId := "individual",
     coordinates := element.boundingBox, text := element.text,
     visualContext := inferVisualContext element, confidence := "medium",
     notes := "Individual text element", isCombined := false }, c + 1)

/-- Standalone-segment loop of `processSlideSegmentation`
(segmentation-engine.js, lines 46–49). -/
def standaloneSegments (slideId : ℚ) :
    List Element → ℕ → ℕ → List Segment × ℕ
  | [], _, c => ([], c)
  | element :: rest, index, c =>
    let (seg, c1) := createTextElementSegment element slideId index c
    let (restSegs, c') := standaloneSegments slideId rest (index + 1) c1
    (seg :: restSegs, c')

/-- Context-group loop of `processSlideSegmentation`
(segmentation-engine.js, lines 40–43); the map key passed as `contextId` is
the group's context id. -/
def contextSegmentsLoop (slideId : ℚ) :
    List CtxGroup → ℕ → List Segment × ℕ
  | [], c => ([], c)
  | g :: rest, c =>
    let (segs, c1) := createContextSegments g slideId g.context.id c
    let (more, c') := contextSegmentsLoop slideId rest c1
    (segs ++ more, c')

/-- A slide as consumed by `processSlideSegmentation` (its unused
`segments` field is omitted). -/
structure Slide where
  slideId : ℚ
  textElements : List Element
  visualContexts : List VisualContext
deriving DecidableEq

/-- `processSlideSegmentation` (segmentation-engine.js, lines 32–52). -/
def processSlideSegmentation (oracle : List CtxGroup → List CtxGroup)
    (slide : Slide) (c : ℕ) : List Segment × ℕ :=
  let contextGroups := groupElementsByVisualContext oracle slide.textElements slide.visualContexts
  let (ctxSegs, c1) := contextSegmentsLoop slide.slideId contextGroups c
  let (elemSegs, c2) := standaloneSegments slide.slideId slide.textElements 0 c1
  (ctxSegs ++ elemSegs, c2)

/-- The deduplication key of `removeDuplicates` (segmentation-engine.js,
line 322).  The source joins `slideId`, `text`, `coordinates.x` and
`coordinates.y` with `_` into one string; since the numeric components print
without `_`, that string determines the four components (parse the slide id
up to its first `_` and the two coordinates from the last two `_`), so the
key is modelled as the 4-tuple itself. -/
def segmentKey (s : Segment) : ℚ × String × ℚ × ℚ :=
  (s.slideId, s.text, s.coordinates.x, s.coordinates.y)

/-- Filter loop of `removeDuplicates` (segmentation-engine.js,
lines 319–329) with its `seen` set. -/
def removeDuplicatesAux (seen : List (ℚ × String × ℚ × ℚ)) :
    List Segment → List Segment
  | [] => []
  | s :: rest =>
    if segmentKey s ∈ seen then removeDuplicatesAux seen rest
    else s :: removeDuplicatesAux (segmentKey s :: seen) rest

/-- `removeDuplicates` (segmentation-engine.js, lines 319–329). -/
def removeDuplicates (segments : List Segment) : List Segment :=
  removeDuplicatesAux [] segments

/-- `areSegmentsSimilar` (segmentation-engine.js, lines 374–383): same slide
and visual context, centroid distance below `50` pixels (squared here). -/
def areSegmentsSimilar (segment1 segment2 : Segment) : Bool :=
  decide (segment1.slideId = segment2.slideId) &&
  decide (segment1.visualContext = segment2.visualContext) &&
  decide (centroidDistSq segment1.coordinates segment2.coordinates < 2500)

/-- `mergeSegments` (segmentation-engine.js, lines 415–431): spread of the
first segment with merged text, union box, fresh counter id, `isMerged` and
the original ids. -/
def mergeSegments (segments : List Segment) (c : ℕ) : Segment × ℕ :=
  let firstSegment := segments.headI
  ({ firstSegment with
     id := "merged" ++ "_" ++ natToString c,
     text := String.intercalate " " (segments.map (·.text)),
     coordinates := calculateCombinedBoundingBox (segments.map (·.coordinates)),
     notes := "Merged " ++ natToString segments.length ++ " similar segments",
     isMerged := true,
     originalSegments := segments.map (·.id) }, c + 1)

/-- `mergeSimilarSegments` (segmentation-engine.js, lines 336–366): single
forward pass with a processed-set.  When the outer loop reaches an
unprocessed segment it scans the remaining unprocessed segments for ones
similar to it — which, processed indices being exactly the earlier ones and
the already-absorbed ones, is the tail with the absorbed ones filtered out. -/
def mergeSimilarSegments : List Segment → ℕ → List Segment × ℕ
  | [], c => ([], c)
  | s :: rest, c =>
    let similar := rest.filter (fun t => areSegmentsSimilar s t)
    let rest' := rest.filter (fun t => !areSegmentsSimilar s t)
    if similar.isEmpty then
      let (out, c') := mergeSimilarSegments rest' c
      (s :: out, c')
    else
      let (m, c1) := mergeSegments (s :: similar) c
      let (out, c') := mergeSimilarSegments rest' c1
      (m :: out, c')
termination_by l _ => l.length
decreasing_by
  all_goals
    simp only [List.length_cons]
    exact Nat.lt_succ_of_le (List.length_filter_le _ rest)

/-- The ordering implemented by the comparator of `sortSegments`
(segmentation-engine.js, lines 438–453): slide id, then `y`, then `x`. -/
def segLE (a b : Segment) : Prop :=
  a.slideId < b.slideId ∨
    (a.slideId = b.slideId ∧
      (a.coordinates.y < b.coordinates.y ∨
        (a.coordinates.y = b.coordinates.y ∧ a.coordinates.x ≤ b.coordinates.x)))

instance : DecidableRel segLE := fun a b => by
  unfold segLE; infer_instance

/-- `sortSegments` (segmentation-engine.js, lines 438–453).  `Array.sort`
with this (consistent) three-way comparator returns a stable sort of the
input by `segLE`; insertion sort is such a sort. -/
def sortSegments (segments : List Segment) : List Segment :=
  List.insertionSort segLE segments

/-- `optimizeSegmentation` (segmentation-engine.js, lines 303–312):
deduplicate, merge similar, sort. -/
def optimizeSegmentation (segments : List Segment) (c : ℕ) : List Segment × ℕ :=
  let uniqueSegments := removeDuplicates segments
  let (mergedSegments, c') := mergeSimilarSegments uniqueSegments c
  (sortSegments mergedSegments, c')

/-- Per-slide loop of `generateSegmentation` (segmentation-engine.js,
lines 16–25). -/
def generateSegmentationAux (oracle : List CtxGroup → List CtxGroup) :
    List Slide → ℕ → List Segment × ℕ
  | [], c => ([], c)
  | slide :: rest, c =>
    let (segs, c1) := processSlideSegmentation oracle slide c
    let (more, c') := generateSegmentationAux oracle rest c1
    (segs ++ more, c')

/-- `generateSegmentation` (segmentation-engine.js, lines 16–25): all slide
segments, then the optimizer. -/
def generateSegmentation (oracle : List CtxGroup → List CtxGroup)
    (slides : List Slide) (c : ℕ) : List Segment × ℕ :=
  let (allSegments, c1) := generateSegmentationAux oracle slides c
  optimizeSegmentation allSegments c1

/-- JS `a || d` for a possibly-undefined string (`undefined` and `""` are
falsy). -/
def jsStrOr (x : Option String) (d : String) : String :=
  match x with
  | none => d
  | some s => if s = "" then d else s

/-- A `content_elements` entry of a GPT visual area. -/
structure ContentElement where
  type_ : String
  content : String
deriving DecidableEq

/-- A visual context on the analyzer side (visual-analyzer.js): fallback
analysis builds them directly, `enhanceSlideWithAnalysis` converts GPT
`visual_areas` into them (whose `coordinates` may be absent). -/
structure AVisualContext where
  id : String
  type_ : String
  description : String
  boundingBox : Option Box
  relatedElements : List String
  topic : Option String
  semanticContext : Option String
  contentElements : Option (List ContentElement)
deriving DecidableEq

/-- A slide segment on the analyzer side (created upstream by the
PowerPoint processor, re-tagged by `enhanceSlideWithAnalysis`). -/
structure ASegment where
  id : String
  slideId : ℚ
  textElementId : String
  visualContextId : String
  coordinates : Box
  text : String
  visualContext : String
  confidence : String
  notes : String
  topic : Option String
  semanticContext : Option String
  contentElements : Option (List ContentElement)
deriving DecidableEq

/-- A GPT `visual_areas` entry (visual-analyzer.js prompt format). -/
structure AArea where
  id : String
  type_ : String
  coordinates : Option Box
  grouped_with : List String
  confidence : ℚ
  topic : Option String
  context_description : Option String
  content_elements : Option (List ContentElement)
deriving DecidableEq

/-- A `textRelationships` entry (old response format / fallback). -/
structure ARelationship where
  group : String
  elements : List String
  reason : String
  type_ : Option String
deriving DecidableEq

/-- A `segmentationRecommendations` entry. -/
structure ARecommendation where
  segmentId : String
  text : String
  visualContext : String
  confidence : String
  reasoning : String
deriving DecidableEq

/-- A parsed GPT analysis result (both response formats; absent arrays
default to `[]`, as in the destructuring on visual-analyzer.js line 317). -/
structure AnalysisResult where
  visual_areas : List AArea := []
  visualContexts : List AVisualContext := []
  textRelationships : List ARelationship := []
  segmentationRecommendations : List ARecommendation := []
deriving DecidableEq

/-- The slide payload of `analyzeSlide` (visual-analyzer.js); the opaque
`slideImage` reference is only forwarded to the external service and is
omitted from the model. -/
structure SlideData where
  slideId : ℚ
  textElements : List Element
  visualContexts : List AVisualContext
  segments : List ASegment
  overallContext : String
deriving DecidableEq

/-- `mapContentTypeToVisualContext` (visual-analyzer.js, lines 455–469). -/
def mapContentTypeToVisualContext (contentType : String) : String :=
  if contentType = "title" then "title_group"
  else if contentType = "body_text" then "body_text"
  else if contentType = "caption" then "caption"
  else if contentType = "bullet_list" then "bullet_list"
  else if contentType = "header_footer" then "header_footer"
  else if contentType = "callout" then "callout"
  else if contentType = "navigation" then "navigation"
  else if contentType = "mixed_content" then "other"
  else if contentType = "image" then "other"
  else if contentType = "chart" then "other"
  else "other"

/-- `mapConfidenceScore` (visual-analyzer.js, lines 476–480). -/
def mapConfidenceScore (score : ℚ) : String :=
  if score ≥ 8 / 10 then "high"
  else if score ≥ 5 / 10 then "medium"
  else "low"

/-- `isTextElementInArea` (visual-analyzer.js, lines 488–509): the segment's
centre lies (non-strictly) within the area's coordinates; `false` when the
area has no coordinates. -/
def isTextElementInArea (segment : ASegment) (area : AArea) : Bool :=
  match area.coordinates with
  | none => false
  | some areaBox =>
    let elementCenterX := segment.coordinates.x + segment.coordinates.width / 2
    let elementCenterY := segment.coordinates.y + segment.coordinates.height / 2
    decide (elementCenterX ≥ areaBox.x) &&
    decide (elementCenterX ≤ areaBox.x + areaBox.width) &&
    decide (elementCenterY ≥ areaBox.y) &&
    decide (elementCenterY ≤ areaBox.y + areaBox.height)

/-- Conversion of a GPT `visual_areas` entry to the `visualContexts` format
(visual-analyzer.js, lines 320–331).  The JS `||` chains treat absent and
empty strings as falsy. -/
def convertArea (area : AArea) : AVisualContext :=
  { id := area.id,
    type_ := mapContentTypeToVisualContext area.type_,
    description := jsStrOr area.context_description (jsStrOr area.topic "Visual area"),
    boundingBox := area.coordinates,
    relatedElements := area.grouped_with,
    topic := area.topic,
    semanticContext := area.context_description,
    contentElements := area.content_elements }

/-- The template-literal rendering of `a || b` where both sides may be
`undefined` (an `undefined` result prints as the string `"undefined"`). -/
def jsOrPrint (a b : Option String) : String :=
  match a with
  | some s => if s = "" then (match b with | some t => t | none => "undefined") else s
  | none => match b with | some t => t | none => "undefined"

/-- The combined bounding box used for relationship segments
(visual-analyzer.js, lines 408–424 — same computation as the engine's). -/
def elementsCombinedBox (elements : List Element) : Box :=
  calculateCombinedBoundingBox (elements.map (·.boundingBox))

/-- One combined segment pushed for a `textRelationships` entry with more
than one element (visual-analyzer.js, lines 373–398). -/
def relationshipSegment (sd : SlideData) (relationship : ARelationship) : ASegment :=
  let combinedText :=
    String.intercalate " "
      (relationship.elements.map (fun elementId =>
        match sd.textElements.find? (fun el => el.id = elementId) with
        | some el => el.text
        | none => ""))
  { id := relationship.group ++ "_combined",
    slideId := sd.slideId,
    textElementId := relationship.group,
    visualContextId := "combined",
    coordinates := elementsCombinedBox
      (sd.textElements.filter (fun el => relationship.elements.contains el.id)),
    text := combinedText,
    visualContext := jsStrOr relationship.type_ "other",
    confidence := "high",
    notes := relationship.reason,
    topic := none, semanticContext := none, contentElements := none }

/-- `enhanceSlideWithAnalysis` (visual-analyzer.js, lines 315–401): install
the (possibly converted) visual contexts, re-tag each existing segment from
the first matching visual area, else from the first matching recommendation,
and append one combined segment per multi-element relationship. -/
def enhanceSlideWithAnalysis (slideData : SlideData) (analysisResult : AnalysisResult) :
    SlideData :=
  let visual_areas := analysisResult.visual_areas
  let enhancedVisualContexts :=
    if visual_areas.length > 0 then visual_areas.map convertArea
    else analysisResult.visualContexts
  let segments1 :=
    slideData.segments.map (fun segment =>
      match visual_areas.find? (fun area => isTextElementInArea segment area) with
      | some visualArea =>
        { segment with
          visualContext := mapContentTypeToVisualContext visualArea.type_,
          confidence := mapConfidenceScore visualArea.confidence,
          topic := visualArea.topic,
          semanticContext := visualArea.context_description,
          contentElements := visualArea.content_elements,
          notes := "Visual analysis: " ++
                   jsOrPrint visualArea.context_description visualArea.topic }
      | none =>
        match analysisResult.segmentationRecommendations.find?
            (fun r => strIncludes r.segmentId segment.textElementId) with
        | some r =>
          { segment with
            visualContext := r.visualContext,
            confidence := r.confidence,
            notes := r.reasoning }
        | none => segment)
  let combinedSegments :=
    (analysisResult.textRelationships.filter (fun rel => rel.elements.length > 1)).map
      (relationshipSegment slideData)
  { slideData with
    visualContexts := enhancedVisualContexts,
    segments := segments1 ++ combinedSegments }

/-- Squared distance used by `areElementsSimilar`
(`calculateElementDistance`, visual-analyzer.js, lines 232–246). -/
def elementDistSq (element1 element2 : Element) : ℚ :=
  centroidDistSq element1.boundingBox element2.boundingBox

/-- `areElementsSimilar` (visual-analyzer.js, lines 213–224): font sizes
within `4`, same boldness, centroid distance below `100` pixels. -/
def areElementsSimilar (element1 element2 : Element) : Bool :=
  if |jsNumOr element1.fontSize 12 - jsNumOr element2.fontSize 12| > 4 then false
  else if (element1.isBold.getD false) ≠ (element2.isBold.getD false) then false
  else decide (elementDistSq element1 element2 < 10000)

/-- `groupSimilarElements` (visual-analyzer.js, lines 181–205): forward pass
with a processed-set, each unprocessed element collecting the later
unprocessed elements similar to it. -/
def groupSimilarElements : List Element → List (List Element)
  | [] => []
  | e :: rest =>
    let similar := rest.filter (fun o => areElementsSimilar e o)
    let rest' := rest.filter (fun o => !areElementsSimilar e o)
    (e :: similar) :: groupSimilarElements rest'
termination_by l => l.length
decreasing_by
  simp only [List.length_cons]
  exact Nat.lt_succ_of_le (List.length_filter_le _ _)

/-- Per-element loop of `createFallbackAnalysis` (visual-analyzer.js,
lines 92–113): one auto-detected visual context and one recommendation per
text element. -/
def fallbackPerElement : List Element → ℕ → List AVisualContext × List ARecommendation
  | [], _ => ([], [])
  | element :: rest, index =>
    let contextType := inferVisualContextType element
    let context : AVisualContext :=
      { id := "vc" ++ "_" ++ natToString (index + 1),
        type_ := contextType,
        description := "Auto-detected " ++ contextType ++ " context",
        boundingBox := some element.boundingBox,
        relatedElements := [element.id],
        topic := none, semanticContext := none, contentElements := none }
    let recommendation : ARecommendation :=
      { segmentId := element.id, text := element.text,
        visualContext := contextType, confidence := "medium",
        reasoning := "Fallback analysis based on text characteristics" }
    let (ctxs, recs) := fallbackPerElement rest (index + 1)
    (context :: ctxs, recommendation :: recs)

/-- Per-group loop of `createFallbackAnalysis` (visual-analyzer.js,
lines 116–136): groups with more than one element get a relationship and a
grouped recommendation.  Text elements carry no `visualContext` property, so
`group[0].visualContext || 'other'` is always `"other"`. -/
def fallbackPerGroup : List (List Element) → ℕ → List ARelationship × List ARecommendation
  | [], _ => ([], [])
  | group :: rest, groupIndex =>
    let (rels, recs) := fallbackPerGroup rest (groupIndex + 1)
    if group.length > 1 then
      let groupId := "group" ++ "_" ++ natToString (groupIndex + 1)
      let combinedText := String.intercalate " " (group.map (·.text))
      let rel : ARelationship :=
        { group := groupId, elements := group.map (·.id),
          reason := "Elements with similar characteristics grouped together",
          type_ := none }
      let recommendation : ARecommendation :=
        { segmentId := groupId, text := combinedText,
          visualContext := "other", confidence := "high",
          reasoning := "Grouped similar elements for better translation context" }
      (rel :: rels, recommendation :: recs)
    else (rels, recs)

/-- `createFallbackAnalysis` (visual-analyzer.js, lines 84–143): the
deterministic classifier-only fallback, fed into
`enhanceSlideWithAnalysis` with no `visual_areas`. -/
def createFallbackAnalysis (slideData : SlideData) : SlideData :=
  let (visualContexts, elementRecs) := fallbackPerElement slideData.textElements 0
  let groupedElements := groupSimilarElements slideData.textElements
  let (textRelationships, groupRecs) := fallbackPerGroup groupedElements 0
  enhanceSlideWithAnalysis slideData
    { visual_areas := [],
      visualContexts := visualContexts,
      textRelationships := textRelationships,
      segmentationRecommendations := elementRecs ++ groupRecs }

/-- The outcome of the external GPT call inside `analyzeSlide`
(visual-analyzer.js, lines 20–77), which the Lean model takes as an input:
the call threw; it returned a null/empty/whitespace `content`; it returned
content that `JSON.parse` rejects; or it returned a parsed result. -/
inductive GPTOutcome where
  | threw : GPTOutcome
  | emptyResponse : GPTOutcome
  | unparseable : GPTOutcome
  | parsed : AnalysisResult → GPTOutcome

/-- `analyzeSlide` (visual-analyzer.js, lines 20–77): empty and unparseable
responses take the `createFallbackAnalysis` path; a thrown error is caught
and the original `slideData` is returned unchanged; a parsed result goes to
`enhanceSlideWithAnalysis`.  Total — no outcome raises. -/
def analyzeSlide (outcome : GPTOutcome) (slideData : SlideData) : SlideData :=
  match outcome with
  | .threw => slideData
  | .emptyResponse => createFallbackAnalysis slideData
  | .unparseable => createFallbackAnalysis slideData
  | .parsed analysisResult => enhanceSlideWithAnalysis slideData analysisResult

/-- The per-segment id accounting used by the merge-partition claim: a
merged output segment accounts for its recorded original ids, an unmerged
one for its own id. -/
def accountedIds (out : List Segment) : List String :=
  (out.map (fun s => if s.isMerged then s.originalSegments else [s.id])).flatten

/-- The token of a string after its last `_` (the whole string if it has no
`_`): the decimal counter value embedded at the end of every generated
segment id. -/
def lastUnderscoreToken (l : List Char) : List Char :=
  (l.reverse.takeWhile (fun c => c ≠ '_')).reverse

/-- The trailing counter token of a segment's id. -/
def segTag (s : Segment) : List Char :=
  lastUnderscoreToken s.id.data

theorem listMin_le_of_mem : ∀ {l : List ℚ} {a : ℚ}, a ∈ l → listMin l ≤ a := by
  intro l
  induction l with
  | nil => intro a h; cases h
  | cons x t ih =>
    intro a h
    cases t with
    | nil =>
      rcases List.mem_singleton.mp h with rfl
      simp [listMin]
    | cons y t' =>
      rcases List.mem_cons.mp h with rfl | h'
      · simp [listMin]
      · exact le_trans (by simp [listMin]) (ih h')

theorem le_listMax_of_mem : ∀ {l : List ℚ} {a : ℚ}, a ∈ l → a ≤ listMax l := by
  intro l
  induction l with
  | nil => intro a h; cases h
  | cons x t ih =>
    intro a h
    cases t with
    | nil =>
      rcases List.mem_singleton.mp h with rfl
      simp [listMax]
    | cons y t' =>
      rcases List.mem_cons.mp h with rfl | h'
      · simp [listMax]
      · exact le_trans (ih h') (by simp [listMax])

/-- C6: the bounding-box union contains every member box (non-strict edge
comparisons), and the union of the empty list is the zero box `{0,0,0,0}`
rather than an error. -/
theorem C6_union_contains_members (boxes : List Box) (b : Box) (hb : b ∈ boxes) :
    isWithinBounds b (calculateCombinedBoundingBox boxes) = true ∧
    calculateCombinedBoundingBox [] = ⟨0, 0, 0, 0⟩ := by
  refine ⟨?_, rfl⟩
  have hne : boxes.isEmpty = false := by
    cases boxes with
    | nil => cases hb
    | cons x t => rfl
  have h1 : listMin (boxes.map (·.x)) ≤ b.x :=
    listMin_le_of_mem (List.mem_map_of_mem _ hb)
  have h2 : listMin (boxes.map (·.y)) ≤ b.y :=
    listMin_le_of_mem (List.mem_map_of_mem _ hb)
  have h3 : b.x + b.width ≤ listMax (boxes.map fun bb => bb.x + bb.width) :=
    le_listMax_of_mem (List.mem_map_of_mem _ hb)
  have h4 : b.y + b.height ≤ listMax (boxes.map fun bb => bb.y + bb.height) :=
    le_listMax_of_mem (List.mem_map_of_mem _ hb)
  simp only [calculateCombinedBoundingBox, hne, Bool.false_eq_true, if_false,
    isWithinBounds, Bool.and_eq_true, decide_eq_true_eq, ge_iff_le]
  refine ⟨⟨⟨h1, h2⟩, ?_⟩, ?_⟩ <;> linarith

/-- Witness for C6 at a concrete member of a concrete box list. -/
theorem C6_union_contains_members_witness :
    (⟨0, 0, 2, 2⟩ : Box) ∈ [(⟨0, 0, 2, 2⟩ : Box), ⟨1, 1, 3, 3⟩] ∧
    (isWithinBounds ⟨0, 0, 2, 2⟩
        (calculateCombinedBoundingBox [⟨0, 0, 2, 2⟩, ⟨1, 1, 3, 3⟩]) = true ∧
      calculateCombinedBoundingBox [] = ⟨0, 0, 0, 0⟩) :=
  ⟨List.mem_cons_self _ _,
    C6_union_contains_members [⟨0, 0, 2, 2⟩, ⟨1, 1, 3, 3⟩] ⟨0, 0, 2, 2⟩
      (List.mem_cons_self _ _)⟩

theorem removeDuplicatesAux_idem :
    ∀ (l : List Segment) (seen : List (ℚ × String × ℚ × ℚ)),
      removeDuplicatesAux seen (removeDuplicatesAux seen l) =
        removeDuplicatesAux seen l := by
  intro l
  induction l with
  | nil => intro seen; rfl
  | cons s rest ih =>
    intro seen
    by_cases h : segmentKey s ∈ seen
    · simp only [removeDuplicatesAux, if_pos h]
      exact ih seen
    · have e1 : removeDuplicatesAux seen (s :: rest) =
          s :: removeDuplicatesAux (segmentKey s :: seen) rest := by
        simp only [removeDuplicatesAux, if_neg h]
      have e2 : removeDuplicatesAux seen
            (s :: removeDuplicatesAux (segmentKey s :: seen) rest) =
          s :: removeDuplicatesAux (segmentKey s :: seen)
            (removeDuplicatesAux (segmentKey s :: seen) rest) := by
        simp only [removeDuplicatesAux, if_neg h]
      rw [e1, e2, ih]

/-- C7: deduplication by the key `(pageId, text, coordinates.x,
coordinates.y)`, keeping the first occurrence, is idempotent. -/
theorem C7_removeDuplicates_idempotent (segments : List Segment) :
    removeDuplicates (removeDuplicates segments) = removeDuplicates segments :=
  removeDuplicatesAux_idem segments []

/-- C1: the two concrete classifier examples of the claim, against both
copies of the fallback classifier.  The analyzer's
`inferVisualContextType` behaves as the claim states; the engine's
`inferVisualContext` classifies the `•`-bulleted text as `body_text`
because its source compares against the mojibake sequence `'â€¢'` instead
of `'•'` (contradicting its own `Bullet list detection` comment and the
analyzer's copy of the same heuristic) — the claim fails on that copy. -/
theorem C1_classifier_examples :
    inferVisualContextType
        { id := "e1", text := "• Revenue grew 12%", boundingBox := ⟨0, 0, 0, 0⟩,
          fontSize := none, isBold := none } = "bullet_list" ∧
    inferVisualContextType
        { id := "e2", text := "Q3 Results", boundingBox := ⟨0, 0, 0, 0⟩,
          fontSize := some 24, isBold := some true } = "title_group" ∧
    inferVisualContext
        { id := "e2", text := "Q3 Results", boundingBox := ⟨0, 0, 0, 0⟩,
          fontSize := some 24, isBold := some true } = "title_group" ∧
    inferVisualContext
        { id := "e1", text := "• Revenue grew 12%", boundingBox := ⟨0, 0, 0, 0⟩,
          fontSize := none, isBold := none } = "body_text" := by
  refine ⟨by decide, by decide, by decide, by decide⟩

theorem accountedIds_cons (a : Segment) (l : List Segment) :
    accountedIds (a :: l) =
      (if a.isMerged then a.originalSegments else [a.id]) ++ accountedIds l := by
  simp [accountedIds]

theorem mergeSimilar_cons_neg (s : Segment) (rest : List Segment) (c : ℕ)
    (h : (rest.filter (fun t => areSegmentsSimilar s t)).isEmpty = true) :
    mergeSimilarSegments (s :: rest) c =
      (s :: (mergeSimilarSegments (rest.filter (fun t => !areSegmentsSimilar s t)) c).1,
       (mergeSimilarSegments (rest.filter (fun t => !areSegmentsSimilar s t)) c).2) := by
  rw [mergeSimilarSegments]
  simp only [h, if_true]

theorem mergeSimilar_cons_pos (s : Segment) (rest : List Segment) (c : ℕ)
    (h : (rest.filter (fun t => areSegmentsSimilar s t)).isEmpty = false) :
    mergeSimilarSegments (s :: rest) c =
      ((mergeSegments (s :: rest.filter (fun t => areSegmentsSimilar s t)) c).1 ::
         (mergeSimilarSegments (rest.filter (fun t => !areSegmentsSimilar s t))
            ((mergeSegments (s :: rest.filter (fun t => areSegmentsSimilar s t)) c).2)).1,
       (mergeSimilarSegments (rest.filter (fun t => !areSegmentsSimilar s t))
          ((mergeSegments (s :: rest.filter (fun t => areSegmentsSimilar s t)) c).2)).2) := by
  rw [mergeSimilarSegments]
  simp only [h, Bool.false_eq_true, if_false]

theorem mergeSimilar_accounted :
    ∀ (n : ℕ) (l : List Segment) (c : ℕ), l.length ≤ n →
      (∀ s ∈ l, s.isMerged = false) →
      List.Perm (accountedIds (mergeSimilarSegments l c).1) (l.map (·.id)) := by
  intro n
  induction n with
  | zero =>
    intro l c hn _
    have : l = [] := List.length_eq_zero.mp (Nat.le_zero.mp hn)
    subst this
    simp [mergeSimilarSegments, accountedIds]
  | succ n ih =>
    intro l c hn hm
    cases l with
    | nil => simp [mergeSimilarSegments, accountedIds]
    | cons s rest =>
      have hrest' : ∀ t ∈ rest.filter (fun t => !areSegmentsSimilar s t), t.isMerged = false :=
        fun t ht => hm t (List.mem_cons_of_mem s (List.mem_of_mem_filter ht))
      have hlen : (rest.filter (fun t => !areSegmentsSimilar s t)).length ≤ n := by
        have := List.length_filter_le (fun t => !areSegmentsSimilar s t) rest
        simp only [List.length_cons] at hn
        omega
      by_cases h : (rest.filter (fun t => areSegmentsSimilar s t)).isEmpty = true
      · rw [mergeSimilar_cons_neg s rest c h]
        have hfil : rest.filter (fun t => !areSegmentsSimilar s t) = rest := by
          refine List.filter_eq_self.mpr ?_
          intro a ha
          have hnil := List.isEmpty_iff.mp h
          have := List.filter_eq_nil_iff.mp hnil a ha
          simp [this]
        have hs : s.isMerged = false := hm s (List.mem_cons_self _ _)
        rw [accountedIds_cons, hs]
        simp only [if_false, Bool.false_eq_true]
        rw [hfil] at hrest' hlen ⊢
        have hperm := ih rest c hlen hrest'
        simpa using hperm.cons s.id
      · have h' : (rest.filter (fun t => areSegmentsSimilar s t)).isEmpty = false := by
          simpa using h
        rw [mergeSimilar_cons_pos s rest c h']
        rw [accountedIds_cons]
        have hmseg : (mergeSegments (s :: rest.filter (fun t => areSegmentsSimilar s t)) c).1.isMerged = true := by
          simp [mergeSegments]
        have horig : (mergeSegments (s :: rest.filter (fun t => areSegmentsSimilar s t)) c).1.originalSegments =
            (s :: rest.filter (fun t => areSegmentsSimilar s t)).map (·.id) := by
          simp [mergeSegments]
        rw [hmseg, horig]
        simp only [if_true]
        have hrec := ih (rest.filter (fun t => !areSegmentsSimilar s t))
          ((mergeSegments (s :: rest.filter (fun t => areSegmentsSimilar s t)) c).2) hlen hrest'
        have hperm1 :
            List.Perm
              ((s :: rest.filter (fun t => areSegmentsSimilar s t)).map (·.id) ++
                accountedIds ((mergeSimilarSegments (rest.filter (fun t => !areSegmentsSimilar s t))
                  ((mergeSegments (s :: rest.filter (fun t => areSegmentsSimilar s t)) c).2)).1))
              ((s :: rest.filter (fun t => areSegmentsSimilar s t)).map (·.id) ++
                (rest.filter (fun t => !areSegmentsSimilar s t)).map (·.id)) :=
          List.Perm.append_left _ hrec
        refine hperm1.trans ?_
        have hsplit : List.Perm
            (rest.filter (fun t => areSegmentsSimilar s t) ++
              rest.filter (fun t => !areSegmentsSimilar s t)) rest :=
          List.filter_append_perm _ rest
        have : List.Perm
            (((s :: rest.filter (fun t => areSegmentsSimilar s t)) ++
               rest.filter (fun t => !areSegmentsSimilar s t)).map (·.id))
            ((s :: rest).map (·.id)) := by
          refine List.Perm.map _ ?_
          simpa using hsplit.cons s
        simpa using this

/-- C3: the merge step partitions its input — the ids recorded by merged
output segments together with the ids of un-merged output segments are,
as a multiset (hence as a set, with each input counted exactly once), the
ids of the pre-merge input segments. -/
theorem C3_merge_partitions_ids (l : List Segment) (c : ℕ)
    (h : ∀ s ∈ l, s.isMerged = false) :
    List.Perm (accountedIds (mergeSimilarSegments l c).1) (l.map (·.id)) :=
  mergeSimilar_accounted l.length l c le_rfl h

/-- Witness for C3 at a concrete two-segment input. -/
theorem C3_merge_partitions_ids_witness :
    List.Perm
      (accountedIds
        (mergeSimilarSegments
          [{ id := "a", slideId := 1, textElementId := "t1", visualContextId := "v1",
             coordinates := ⟨0, 0, 10, 10⟩, text := "hello", visualContext := "body_text",
             confidence := "medium", notes := "" },
           { id := "b", slideId := 1, textElementId := "t2", visualContextId := "v1",
             coordinates := ⟨1, 1, 10, 10⟩, text := "world", visualContext := "body_text",
             confidence := "medium", notes := "" }] 7).1)
      ["a", "b"] := by
  have := C3_merge_partitions_ids
    [{ id := "a", slideId := 1, textElementId := "t1", visualContextId := "v1",
       coordinates := ⟨0, 0, 10, 10⟩, text := "hello", visualContext := "body_text",
       confidence := "medium", notes := "" },
     { id := "b", slideId := 1, textElementId := "t2", visualContextId := "v1",
       coordinates := ⟨1, 1, 10, 10⟩, text := "world", visualContext := "body_text",
       confidence := "medium", notes := "" }] 7
    (by
      intro s hs
      rcases List.mem_cons.mp hs with rfl | hs2
      · rfl
      · rcases List.mem_cons.mp hs2 with rfl | hs3
        · rfl
        · cases hs3)
  simpa using this

theorem segLE_total : ∀ a b : Segment, segLE a b ∨ segLE b a := by
  intro a b
  unfold segLE
  rcases lt_trichotomy a.slideId b.slideId with h | h | h
  · exact Or.inl (Or.inl h)
  · rcases lt_trichotomy a.coordinates.y b.coordinates.y with h2 | h2 | h2
    · exact Or.inl (Or.inr ⟨h, Or.inl h2⟩)
    · rcases le_total a.coordinates.x b.coordinates.x with h3 | h3
      · exact Or.inl (Or.inr ⟨h, Or.inr ⟨h2, h3⟩⟩)
      · exact Or.inr (Or.inr ⟨h.symm, Or.inr ⟨h2.symm, h3⟩⟩)
    · exact Or.inr (Or.inr ⟨h.symm, Or.inl h2⟩)
  · exact Or.inr (Or.inl h)

theorem segLE_trans : ∀ a b c : Segment, segLE a b → segLE b c → segLE a c := by
  intro a b c hab hbc
  unfold segLE at hab hbc ⊢
  rcases hab with h1 | ⟨h1, h1'⟩
  · rcases hbc with h2 | ⟨h2, _⟩
    · exact Or.inl (h1.trans h2)
    · exact Or.inl (h2 ▸ h1)
  · rcases hbc with h2 | ⟨h2, h2'⟩
    · exact Or.inl (h1 ▸ h2)
    · refine Or.inr ⟨h1.trans h2, ?_⟩
      rcases h1' with h3 | ⟨h3, h3'⟩
      · rcases h2' with h4 | ⟨h4, _⟩
        · exact Or.inl (h3.trans h4)
        · exact Or.inl (h4 ▸ h3)
      · rcases h2' with h4 | ⟨h4, h4'⟩
        · exact Or.inl (h3 ▸ h4)
        · exact Or.inr ⟨h3.trans h4, h3'.trans h4'⟩

theorem sortSegments_sorted (l : List Segment) :
    List.Sorted segLE (sortSegments l) := by
  haveI : IsTotal Segment segLE := ⟨segLE_total⟩
  haveI : IsTrans Segment segLE := ⟨segLE_trans⟩
  exact List.sorted_insertionSort segLE l

theorem optimizeSegmentation_fst (segments : List Segment) (c : ℕ) :
    (optimizeSegmentation segments c).1 =
      sortSegments (mergeSimilarSegments (removeDuplicates segments) c).1 := by
  unfold optimizeSegmentation
  cases hE : mergeSimilarSegments (removeDuplicates segments) c with
  | mk a b => simp [hE]

/-- C2: the optimizer's output is sorted by `(pageId, coordinates.y,
coordinates.x)` — any earlier segment `a` and later segment `b` with the
same page id satisfy `a.y < b.y`, or `a.y = b.y` and `a.x ≤ b.x`. -/
theorem C2_optimizer_output_sorted (segments : List Segment) (c : ℕ) :
    List.Pairwise
      (fun a b : Segment => a.slideId = b.slideId →
        a.coordinates.y < b.coordinates.y ∨
          (a.coordinates.y = b.coordinates.y ∧ a.coordinates.x ≤ b.coordinates.x))
      (optimizeSegmentation segments c).1 := by
  rw [optimizeSegmentation_fst]
  refine (sortSegments_sorted _).imp ?_
  intro a b hab heq
  rcases hab with h | ⟨_, h⟩
  · exact absurd heq (ne_of_lt h)
  · exact h

theorem createIndividualSegments_not_combined (ctype : String) (slideId : ℚ)
    (contextId : String) :
    ∀ (es : List Element) (i c : ℕ),
      ∀ t ∈ (createIndividualSegments ctype slideId contextId es i c).1,
        t.isCombined = false := by
  intro es
  induction es with
  | nil => intro i c t ht; cases ht
  | cons e rest ih =>
    intro i c t ht
    rw [createIndividualSegments] at ht
    cases hE : createIndividualSegments ctype slideId contextId rest (i + 1) (c + 1) with
    | mk out c' =>
      rw [hE] at ht
      simp only at ht
      rcases List.mem_cons.mp ht with rfl | ht'
      · rfl
      · exact ih (i + 1) (c + 1) t (by rw [hE]; exact ht')


theorem createContextSegments_cons_eq (group : CtxGroup) (slideId : ℚ)
    (contextId : String) (c : ℕ) (e : Element) (es : List Element)
    (hel : group.elements = e :: es) :
    (createContextSegments group slideId contextId c).1 =
      { id := "s" ++ ratToString slideId ++ "_vc" ++ contextId ++ "_combined" ++
              "_" ++ natToString c,
        slideId, textElementId := "vc" ++ contextId ++ "_combined",
        visualContextId := contextId,
        coordinates := calculateCombinedBoundingBox ((e :: es).map (·.boundingBox)),
        text := String.intercalate " " ((e :: es).map (·.text)),
        visualContext := group.context.type_,
        confidence := "high",
        notes := "Combined " ++ group.context.type_ ++ " context with " ++
                 natToString (e :: es).length ++ " elements",
        isCombined := true, elementCount := some (e :: es).length } ::
      (createIndividualSegments group.context.type_ slideId contextId (e :: es) 0 (c + 1)).1 := by
  rw [createContextSegments, hel]

/-- C4: for every non-empty group the builder emits exactly one combined
segment, first in the group's output: its text is the members' texts joined
by single spaces in order, its coordinates the bounding-box union of the
member boxes, its category the region's type, confidence `high`,
`isCombined` set, `elementCount` the group size, and every other emitted
segment is not combined; in the two-fragment scenario of the claim the
combined text is `"Overview Details"` with coordinates
`{x:100, y:50, width:600, height:70}`. -/
theorem C4_combined_segment (group : CtxGroup) (slideId : ℚ) (contextId : String)
    (c : ℕ) (hne : group.elements ≠ []) :
    (∃ combined rest,
      (createContextSegments group slideId contextId c).1 = combined :: rest ∧
      combined.text = String.intercalate " " (group.elements.map (·.text)) ∧
      combined.coordinates = calculateCombinedBoundingBox (group.elements.map (·.boundingBox)) ∧
      combined.visualContext = group.context.type_ ∧
      combined.confidence = "high" ∧
      combined.isCombined = true ∧
      combined.elementCount = some group.elements.length ∧
      (∀ t ∈ rest, t.isCombined = false)) ∧
    (∀ combined0 rest0,
      (createContextSegments
        { context := { id := "r1", type_ := "body_text", boundingBox := ⟨0, 0, 800, 600⟩,
                       topic := some "intro", semanticContext := none },
          elements := [{ id := "t1", text := "Overview", boundingBox := ⟨100, 50, 600, 30⟩,
                         fontSize := none, isBold := none },
                       { id := "t2", text := "Details", boundingBox := ⟨100, 90, 600, 30⟩,
                         fontSize := none, isBold := none }],
          boundingBox := ⟨0, 0, 800, 600⟩, topic := some "intro",
          semanticContext := none } 1 "r1" 5).1 = combined0 :: rest0 →
      combined0.text = "Overview Details" ∧ combined0.coordinates = ⟨100, 50, 600, 70⟩) := by
  constructor
  · cases hel : group.elements with
    | nil => exact absurd hel hne
    | cons e es =>
      refine ⟨_, _, createContextSegments_cons_eq group slideId contextId c e es hel,
        rfl, rfl, rfl, rfl, rfl, rfl, ?_⟩
      intro t ht
      exact createIndividualSegments_not_combined group.context.type_ slideId contextId
        (e :: es) 0 (c + 1) t ht
  · intro combined0 rest0 h0
    rw [createContextSegments_cons_eq _ 1 "r1" 5
      { id := "t1", text := "Overview", boundingBox := ⟨100, 50, 600, 30⟩,
        fontSize := none, isBold := none }
      [{ id := "t2", text := "Details", boundingBox := ⟨100, 90, 600, 30⟩,
         fontSize := none, isBold := none }] rfl] at h0
    have hc : combined0 = _ := (List.cons.injEq _ _ _ _ ▸ h0 : _ ∧ _).1.symm
    subst hc
    refine ⟨rfl, ?_⟩
    simp only [calculateCombinedBoundingBox, List.map, listMin, listMax]
    norm_num

/-- Witness for C4 at the claim's concrete two-fragment group. -/
theorem C4_combined_segment_witness :
    (({ context := { id := "r1", type_ := "body_text", boundingBox := ⟨0, 0, 800, 600⟩,
                     topic := some "intro", semanticContext := none },
        elements := [{ id := "t1", text := "Overview", boundingBox := ⟨100, 50, 600, 30⟩,
                       fontSize := none, isBold := none },
                     { id := "t2", text := "Details", boundingBox := ⟨100, 90, 600, 30⟩,
                       fontSize := none, isBold := none }],
        boundingBox := ⟨0, 0, 800, 600⟩, topic := some "intro",
        semanticContext := none } : CtxGroup).elements ≠ []) ∧
    (∃ combined rest,
      (createContextSegments
        { context := { id := "r1", type_ := "body_text", boundingBox := ⟨0, 0, 800, 600⟩,
                       topic := some "intro", semanticContext := none },
          elements := [{ id := "t1", text := "Overview", boundingBox := ⟨100, 50, 600, 30⟩,
                         fontSize := none, isBold := none },
                       { id := "t2", text := "Details", boundingBox := ⟨100, 90, 600, 30⟩,
                         fontSize := none, isBold := none }],
          boundingBox := ⟨0, 0, 800, 600⟩, topic := some "intro",
          semanticContext := none } 1 "r1" 5).1 = combined :: rest ∧
      combined.text = "Overview Details" ∧
      combined.coordinates = ⟨100, 50, 600, 70⟩) := by
  constructor
  · intro h; cases h
  · have h := C4_combined_segment
      { context := { id := "r1", type_ := "body_text", boundingBox := ⟨0, 0, 800, 600⟩,
                     topic := some "intro", semanticContext := none },
        elements := [{ id := "t1", text := "Overview", boundingBox := ⟨100, 50, 600, 30⟩,
                       fontSize := none, isBold := none },
                     { id := "t2", text := "Details", boundingBox := ⟨100, 90, 600, 30⟩,
                       fontSize := none, isBold := none }],
        boundingBox := ⟨0, 0, 800, 600⟩, topic := some "intro",
        semanticContext := none } 1 "r1" 5 (by intro hx; cases hx)
    obtain ⟨⟨combined, rest, heq, _, _, _, _, _, _, _⟩, hconc⟩ := h
    obtain ⟨ht, hco⟩ := hconc combined rest heq
    exact ⟨combined, rest, heq, ht, hco⟩

theorem createFallbackAnalysis_visualContexts (sd : SlideData) :
    (createFallbackAnalysis sd).visualContexts =
      (fallbackPerElement sd.textElements 0).1 := rfl

theorem fallbackPerElement_types :
    ∀ (es : List Element) (i : ℕ),
      ((fallbackPerElement es i).1).map (·.type_) = es.map inferVisualContextType := by
  intro es
  induction es with
  | nil => intro i; rfl
  | cons e rest ih =>
    intro i
    simp only [fallbackPerElement, List.map]
    exact congrArg _ (ih (i + 1))

/-- C8: amended failure semantics of `analyzeSlide`.  The model is total
(no outcome raises).  An empty and an unparseable external response both
return exactly the deterministic classifier-only fallback analysis, whose
visual contexts are the fallback classifier applied to the slide's text
elements one by one; a *thrown* external error, however, is caught and the
original slide data is returned unchanged (not the fallback analysis). -/
theorem C8_analyzeSlide_failure_paths (sd : SlideData) :
    analyzeSlide GPTOutcome.threw sd = sd ∧
    analyzeSlide GPTOutcome.emptyResponse sd = createFallbackAnalysis sd ∧
    analyzeSlide GPTOutcome.unparseable sd = createFallbackAnalysis sd ∧
    (analyzeSlide GPTOutcome.emptyResponse sd).visualContexts.map (·.type_) =
      sd.textElements.map inferVisualContextType := by
  refine ⟨rfl, rfl, rfl, ?_⟩
  show (createFallbackAnalysis sd).visualContexts.map (·.type_) = _
  rw [createFallbackAnalysis_visualContexts]
  exact fallbackPerElement_types sd.textElements 0

/-- Counterexample to C8 as stated: on a thrown external error,
`analyzeSlide` returns the original slide data, not the fallback analysis
(here they differ: the fallback installs one auto-detected visual context
for the slide's single text element, the original has none). -/
theorem C8_threw_not_fallback_counterexample :
    analyzeSlide GPTOutcome.threw
        { slideId := 1,
          textElements := [{ id := "t1", text := "Hello world", boundingBox := ⟨0, 0, 10, 10⟩,
                             fontSize := none, isBold := none }],
          visualContexts := [], segments := [], overallContext := "" } =
      { slideId := 1,
        textElements := [{ id := "t1", text := "Hello world", boundingBox := ⟨0, 0, 10, 10⟩,
                           fontSize := none, isBold := none }],
        visualContexts := [], segments := [], overallContext := "" } ∧
    analyzeSlide GPTOutcome.threw
        { slideId := 1,
          textElements := [{ id := "t1", text := "Hello world", boundingBox := ⟨0, 0, 10, 10⟩,
                             fontSize := none, isBold := none }],
          visualContexts := [], segments := [], overallContext := "" } ≠
      createFallbackAnalysis
        { slideId := 1,
          textElements := [{ id := "t1", text := "Hello world", boundingBox := ⟨0, 0, 10, 10⟩,
                             fontSize := none, isBold := none }],
          visualContexts := [], segments := [], overallContext := "" } := by
  refine ⟨rfl, ?_⟩
  intro h
  have h2 := congrArg (fun x => x.visualContexts.length) h
  simp only [createFallbackAnalysis_visualContexts] at h2
  exact absurd h2 (by decide)

theorem jsGt_irrefl (x : JSNum) : jsGt x x = false := by
  cases x <;> simp [jsGt]

theorem jsGt_true_left_ne_nan {x y : JSNum} (h : jsGt x y = true) : x ≠ JSNum.nan := by
  cases x <;> simp_all [jsGt]

theorem jsGt_true_ne {x y : JSNum} (h : jsGt x y = true) : x ≠ y := by
  intro hxy
  rw [hxy, jsGt_irrefl] at h
  cases h

theorem jsGt_asymm {x y : JSNum} (h : jsGt x y = true) : jsGt y x = false := by
  cases x <;> cases y <;> simp_all [jsGt]
  linarith

theorem jsGt_trans {x y z : JSNum} (h1 : jsGt x y = true) (h2 : jsGt y z = true) :
    jsGt x z = true := by
  cases x <;> cases y <;> cases z <;> simp_all [jsGt]
  linarith

theorem jsGt_false_mono {x s s' : JSNum} (h1 : jsGt x s = false) (hs : s ≠ JSNum.nan)
    (hs' : s' ≠ JSNum.nan) (h4 : s' = s ∨ jsGt s' s = true) : jsGt x s' = false := by
  rcases h4 with rfl | hgt
  · exact h1
  · cases x <;> cases s <;> cases s' <;> simp_all [jsGt]
    linarith

theorem jsGt_beats_nonbeater {x s s' : JSNum} (hgt : jsGt s' s = true)
    (h1 : jsGt x s = false) (hx : x ≠ JSNum.nan) (hs : s ≠ JSNum.nan) :
    jsGt s' x = true := by
  cases x <;> cases s <;> cases s' <;> simp_all [jsGt]
  linarith

theorem findBestAux_invariant (e : Element) :
    ∀ (l : List VisualContext) (b : Option VisualContext) (s : JSNum), s ≠ JSNum.nan →
      (findBestAux e l b s).2 ≠ JSNum.nan ∧
      (∀ ctx ∈ l, jsGt (calculateContextScore e ctx) (findBestAux e l b s).2 = false) ∧
      (((findBestAux e l b s).1 = b ∧ (findBestAux e l b s).2 = s) ∨
        (jsGt (findBestAux e l b s).2 s = true ∧
          ∃ i, ∃ h : i < l.length,
            (findBestAux e l b s).1 = some (l.get ⟨i, h⟩) ∧
            (findBestAux e l b s).2 = calculateContextScore e (l.get ⟨i, h⟩) ∧
            ∀ j, ∀ hj : j < l.length, j < i →
              (calculateContextScore e (l.get ⟨j, hj⟩) = JSNum.nan ∨
                jsGt (findBestAux e l b s).2
                  (calculateContextScore e (l.get ⟨j, hj⟩)) = true))) := by
  intro l
  induction l with
  | nil =>
    intro b s hs
    exact ⟨hs, by simp, Or.inl ⟨rfl, rfl⟩⟩
  | cons ctx rest ih =>
    intro b s hs
    by_cases hgt : jsGt (calculateContextScore e ctx) s = true
    · have hred : findBestAux e (ctx :: rest) b s =
          findBestAux e rest (some ctx) (calculateContextScore e ctx) := by
        simp [findBestAux, hgt]
      have hscore_ne : calculateContextScore e ctx ≠ JSNum.nan :=
        jsGt_true_left_ne_nan hgt
      obtain ⟨h1, h2, h3⟩ := ih (some ctx) (calculateContextScore e ctx) hscore_ne
      rw [hred]
      refine ⟨h1, ?_, ?_⟩
      · intro c hc
        rcases List.mem_cons.mp hc with rfl | hc'
        · rcases h3 with ⟨_, hs2⟩ | ⟨hgt2, _⟩
          · rw [hs2]; exact jsGt_irrefl _
          · exact jsGt_asymm hgt2
        · exact h2 c hc'
      · rcases h3 with ⟨hb, hs2⟩ | ⟨hgt2, i, hi, hb2, hs3, hall⟩
        · right
          refine ⟨by rw [hs2]; exact hgt, 0, by simp, by simpa using hb,
            by simpa using hs2, ?_⟩
          intro j hj hji
          exact absurd hji (Nat.not_lt_zero j)
        · right
          refine ⟨jsGt_trans hgt2 hgt, i + 1, by simpa [Nat.succ_lt_succ_iff] using hi,
            by simpa using hb2, by simpa using hs3, ?_⟩
          intro j hj hji
          cases j with
          | zero =>
            show calculateContextScore e ctx = JSNum.nan ∨
              jsGt (findBestAux e rest (some ctx) (calculateContextScore e ctx)).2
                (calculateContextScore e ctx) = true
            exact Or.inr hgt2
          | succ j' =>
            have hj' : j' < rest.length := by
              simp only [List.length_cons] at hj
              omega
            have := hall j' hj' (by omega)
            simpa using this
    · have hgt' : jsGt (calculateContextScore e ctx) s = false :=
        Bool.eq_false_iff.mpr hgt
      have hred : findBestAux e (ctx :: rest) b s = findBestAux e rest b s := by
        simp [findBestAux, hgt']
      obtain ⟨h1, h2, h3⟩ := ih b s hs
      rw [hred]
      have hmono : (findBestAux e rest b s).2 = s ∨
          jsGt (findBestAux e rest b s).2 s = true := by
        rcases h3 with ⟨_, hs2⟩ | ⟨hgt2, _⟩
        · exact Or.inl hs2
        · exact Or.inr hgt2
      refine ⟨h1, ?_, ?_⟩
      · intro c hc
        rcases List.mem_cons.mp hc with rfl | hc'
        · exact jsGt_false_mono hgt' hs h1 hmono
        · exact h2 c hc'
      · rcases h3 with hL | ⟨hgt2, i, hi, hb2, hs3, hall⟩
        · exact Or.inl hL
        · right
          refine ⟨hgt2, i + 1, by simpa [Nat.succ_lt_succ_iff] using hi,
            by simpa using hb2, by simpa using hs3, ?_⟩
          intro j hj hji
          cases j with
          | zero =>
            show calculateContextScore e ctx = JSNum.nan ∨
              jsGt (findBestAux e rest b s).2 (calculateContextScore e ctx) = true
            by_cases hnan : calculateContextScore e ctx = JSNum.nan
            · exact Or.inl hnan
            · exact Or.inr (jsGt_beats_nonbeater hgt2 hgt' hnan hs)
          | succ j' =>
            have hj' : j' < rest.length := by
              simp only [List.length_cons] at hj
              omega
            have := hall j' hj' (by omega)
            simpa using this

theorem findBestAux_no_update (e : Element) :
    ∀ (l : List VisualContext) (b : Option VisualContext) (s : JSNum),
      (∀ ctx ∈ l, jsGt (calculateContextScore e ctx) s = false) →
      findBestAux e l b s = (b, s) := by
  intro l
  induction l with
  | nil => intro b s _; rfl
  | cons ctx rest ih =>
    intro b s hall
    have h0 : jsGt (calculateContextScore e ctx) s = false :=
      hall ctx (List.mem_cons_self _ _)
    have : findBestAux e (ctx :: rest) b s = findBestAux e rest b s := by
      simp [findBestAux, h0]
    rw [this]
    exact ih b s (fun c hc => hall c (List.mem_cons_of_mem _ hc))

theorem calculateOverlap_eq_zero_of_degenerate (box1 box2 : Box)
    (h : box1.width * box1.height = 0) : calculateOverlap box1 box2 = 0 := by
  rcases mul_eq_zero.mp h with hw | hh
  · have : ¬ (max box1.x box2.x < min (box1.x + box1.width) (box2.x + box2.width)) := by
      intro hlt
      have h1 : min (box1.x + box1.width) (box2.x + box2.width) ≤ box1.x := by
        rw [hw, add_zero]
        exact min_le_left _ _
      have h2 : box1.x ≤ max box1.x box2.x := le_max_left _ _
      linarith
    simp only [calculateOverlap]
    rw [if_neg]
    intro hc
    exact this hc.1
  · have : ¬ (max box1.y box2.y < min (box1.y + box1.height) (box2.y + box2.height)) := by
      intro hlt
      have h1 : min (box1.y + box1.height) (box2.y + box2.height) ≤ box1.y := by
        rw [hh, add_zero]
        exact min_le_left _ _
      have h2 : box1.y ≤ max box1.y box2.y := le_max_left _ _
      linarith
    simp only [calculateOverlap]
    rw [if_neg]
    intro hc
    exact this hc.2

theorem calculateContextScore_nan_of_degenerate (e : Element) (ctx : VisualContext)
    (he : e.boundingBox.width * e.boundingBox.height = 0)
    (hc : ctx.boundingBox.width * ctx.boundingBox.height = 0) :
    calculateContextScore e ctx = JSNum.nan := by
  have hov : calculateOverlap e.boundingBox ctx.boundingBox = 0 :=
    calculateOverlap_eq_zero_of_degenerate _ _ he
  simp only [calculateContextScore, hov, he, hc, max_self]
  simp [jsDiv, jsAddFin]

/-- C10: when the fragment's box and every candidate region's box have zero
area, the composite score is the JS division `0 / max(0, 0) = NaN` for every
candidate; `NaN > bestScore` is always false, so `findBestVisualContext`
returns `null` and the fragment falls through to the standalone classifier
path (the model is total, so no exception is possible). -/
theorem C10_degenerate_boxes_unassigned (e : Element) (ctxs : List VisualContext)
    (he : e.boundingBox.width * e.boundingBox.height = 0)
    (hcs : ∀ ctx ∈ ctxs, ctx.boundingBox.width * ctx.boundingBox.height = 0) :
    (∀ ctx ∈ ctxs, calculateContextScore e ctx = JSNum.nan) ∧
    findBestVisualContext e ctxs = none := by
  have hnan : ∀ ctx ∈ ctxs, calculateContextScore e ctx = JSNum.nan := fun ctx hctx =>
    calculateContextScore_nan_of_degenerate e ctx he (hcs ctx hctx)
  refine ⟨hnan, ?_⟩
  have : findBestAux e ctxs none (JSNum.fin 0) = (none, JSNum.fin 0) :=
    findBestAux_no_update e ctxs none (JSNum.fin 0)
      (fun ctx hctx => by rw [hnan ctx hctx]; rfl)
  unfold findBestVisualContext
  rw [this]

/-- Witness for C10 at a concrete degenerate fragment and region list. -/
theorem C10_degenerate_boxes_unassigned_witness :
    (∀ ctx ∈ [({ id := "r1", type_ := "other", boundingBox := ⟨5, 5, 0, 7⟩,
                 topic := none, semanticContext := none } : VisualContext)],
      calculateContextScore
        { id := "t1", text := "x", boundingBox := ⟨1, 2, 3, 0⟩,
          fontSize := none, isBold := none } ctx = JSNum.nan) ∧
    findBestVisualContext
      { id := "t1", text := "x", boundingBox := ⟨1, 2, 3, 0⟩,
        fontSize := none, isBold := none }
      [{ id := "r1", type_ := "other", boundingBox := ⟨5, 5, 0, 7⟩,
         topic := none, semanticContext := none }] = none := by
  have h := C10_degenerate_boxes_unassigned
    { id := "t1", text := "x", boundingBox := ⟨1, 2, 3, 0⟩,
      fontSize := none, isBold := none }
    [{ id := "r1", type_ := "other", boundingBox := ⟨5, 5, 0, 7⟩,
       topic := none, semanticContext := none }]
    (by norm_num)
    (by
      intro ctx hctx
      rcases List.mem_singleton.mp hctx with rfl
      norm_num)
  exact h

theorem pushElement_mem {gs : List CtxGroup} {cid : String} {x : Element} :
    ∀ g0 ∈ pushElement gs cid x,
      ∃ h, h ∈ gs ∧ (g0 = h ∨ g0 = { h with elements := h.elements ++ [x] }) := by
  intro g0 hg0
  obtain ⟨h, hh, heq⟩ := List.mem_map.mp hg0
  by_cases hc : h.context.id = cid
  · exact ⟨h, hh, Or.inr (by rw [← heq]; simp [hc])⟩
  · exact ⟨h, hh, Or.inl (by rw [← heq]; simp [hc])⟩

theorem assignElements_elements {ctxs : List VisualContext} :
    ∀ (elements : List Element) (gs : List CtxGroup) (g : CtxGroup),
      g ∈ assignElements ctxs gs elements → ∀ x ∈ g.elements,
        (∃ g0 ∈ gs, x ∈ g0.elements) ∨
          (x ∈ elements ∧ findBestVisualContext x ctxs ≠ none) := by
  intro elements
  induction elements with
  | nil =>
    intro gs g hg x hx
    exact Or.inl ⟨g, hg, hx⟩
  | cons e rest ih =>
    intro gs g hg x hx
    cases hf : findBestVisualContext e ctxs with
    | none =>
      have hred : assignElements ctxs gs (e :: rest) = assignElements ctxs gs rest := by
        simp [assignElements, List.foldl, hf]
      rw [hred] at hg
      rcases ih gs g hg x hx with h1 | ⟨h2, h3⟩
      · exact Or.inl h1
      · exact Or.inr ⟨List.mem_cons_of_mem _ h2, h3⟩
    | some bc =>
      have hred : assignElements ctxs gs (e :: rest) =
          assignElements ctxs (pushElement gs bc.id e) rest := by
        simp [assignElements, List.foldl, hf]
      rw [hred] at hg
      rcases ih (pushElement gs bc.id e) g hg x hx with ⟨g0, hg0, hx0⟩ | ⟨h2, h3⟩
      · obtain ⟨h, hh, hcase⟩ := pushElement_mem g0 hg0
        rcases hcase with heq | heq
        · rw [heq] at hx0
          exact Or.inl ⟨h, hh, hx0⟩
        · rw [heq] at hx0
          simp only [List.mem_append, List.mem_singleton] at hx0
          rcases hx0 with hx1 | rfl
          · exact Or.inl ⟨h, hh, hx1⟩
          · exact Or.inr ⟨List.mem_cons_self _ _, by rw [hf]; exact Option.some_ne_none bc⟩
      · exact Or.inr ⟨List.mem_cons_of_mem _ h2, h3⟩

theorem assignElements_context {ctxs : List VisualContext} :
    ∀ (elements : List Element) (gs : List CtxGroup) (g : CtxGroup),
      g ∈ assignElements ctxs gs elements → ∃ g0 ∈ gs, g.context = g0.context := by
  intro elements
  induction elements with
  | nil =>
    intro gs g hg
    exact ⟨g, hg, rfl⟩
  | cons e rest ih =>
    intro gs g hg
    cases hf : findBestVisualContext e ctxs with
    | none =>
      have hred : assignElements ctxs gs (e :: rest) = assignElements ctxs gs rest := by
        simp [assignElements, List.foldl, hf]
      rw [hred] at hg
      exact ih gs g hg
    | some bc =>
      have hred : assignElements ctxs gs (e :: rest) =
          assignElements ctxs (pushElement gs bc.id e) rest := by
        simp [assignElements, List.foldl, hf]
      rw [hred] at hg
      obtain ⟨g0, hg0, hctx⟩ := ih (pushElement gs bc.id e) g hg
      obtain ⟨h, hh, hcase⟩ := pushElement_mem g0 hg0
      rcases hcase with heq | heq
      · rw [heq] at hctx
        exact ⟨h, hh, hctx⟩
      · exact ⟨h, hh, by rw [hctx, heq]⟩

theorem upsertGroup_mem {acc : List CtxGroup} {g : CtxGroup} :
    ∀ h0 ∈ upsertGroup acc g, h0 ∈ acc ∨ h0 = g := by
  intro h0 hh0
  unfold upsertGroup at hh0
  split at hh0
  · obtain ⟨h, hh, heq⟩ := List.mem_map.mp hh0
    by_cases hc : h.context.id = g.context.id
    · right; rw [← heq]; simp [hc]
    · left; rw [← heq]; simp [hc]; exact hh
  · rcases List.mem_append.mp hh0 with h1 | h1
    · exact Or.inl h1
    · exact Or.inr (List.mem_singleton.mp h1)

theorem initGroups_invariant (Q : CtxGroup → Prop) :
    ∀ (l : List VisualContext) (acc : List CtxGroup),
      (∀ g ∈ acc, Q g) →
      (∀ c ∈ l, Q { context := c, elements := [], boundingBox := c.boundingBox,
                    topic := c.topic, semanticContext := c.semanticContext }) →
      ∀ g ∈ l.foldl
        (fun acc context =>
          upsertGroup acc
            { context, elements := [], boundingBox := context.boundingBox,
              topic := context.topic, semanticContext := context.semanticContext })
        acc, Q g := by
  intro l
  induction l with
  | nil =>
    intro acc hacc _ g hg
    exact hacc g hg
  | cons c rest ih =>
    intro acc hacc hl g hg
    refine ih _ ?_ (fun c' hc' => hl c' (List.mem_cons_of_mem _ hc')) g hg
    intro g0 hg0
    rcases upsertGroup_mem g0 hg0 with h1 | rfl
    · exact hacc g0 h1
    · exact hl c (List.mem_cons_self _ _)

theorem initGroups_prop (ctxs : List VisualContext) :
    ∀ g ∈ initGroups ctxs, g.elements = [] ∧ g.context ∈ ctxs := by
  unfold initGroups
  exact initGroups_invariant (fun g => g.elements = [] ∧ g.context ∈ ctxs) ctxs []
    (by intro g hg; cases hg)
    (by intro c hc; exact ⟨rfl, hc⟩)

theorem insertTopicGroup_mem :
    ∀ (acc : List (String × List CtxGroup)) (t : String) (g : CtxGroup),
      ∀ entry ∈ insertTopicGroup acc t g, ∀ h ∈ entry.2,
        (∃ e0 ∈ acc, h ∈ e0.2) ∨ h = g := by
  intro acc
  induction acc with
  | nil =>
    intro t g entry hentry h hh
    rcases List.mem_singleton.mp hentry with rfl
    simp only at hh
    exact Or.inr (List.mem_singleton.mp hh)
  | cons e0 rest ih =>
    intro t g entry hentry h hh
    rcases e0 with ⟨t', gs⟩
    simp only [insertTopicGroup] at hentry
    split at hentry
    · rcases List.mem_cons.mp hentry with heqe | hmem
      · rw [heqe] at hh
        simp only at hh
        rcases List.mem_append.mp hh with h1 | h1
        · exact Or.inl ⟨(t', gs), List.mem_cons_self _ _, h1⟩
        · exact Or.inr (List.mem_singleton.mp h1)
      · exact Or.inl ⟨entry, List.mem_cons_of_mem _ hmem, hh⟩
    · rcases List.mem_cons.mp hentry with heqe | hmem
      · rw [heqe] at hh
        exact Or.inl ⟨(t', gs), List.mem_cons_self _ _, hh⟩
      · rcases ih t g entry hmem h hh with ⟨e1, he1, hh1⟩ | h1
        · exact Or.inl ⟨e1, List.mem_cons_of_mem _ he1, hh1⟩
        · exact Or.inr h1

theorem buildTopicGroups_invariant (Q : CtxGroup → Prop) :
    ∀ (l : List CtxGroup) (acc : List (String × List CtxGroup)),
      (∀ entry ∈ acc, ∀ h ∈ entry.2, Q h) →
      (∀ g ∈ l, Q g) →
      ∀ entry ∈ l.foldl
        (fun acc g =>
          match truthyStr g.topic with
          | none => acc
          | some t => insertTopicGroup acc t g) acc,
        ∀ h ∈ entry.2, Q h := by
  intro l
  induction l with
  | nil =>
    intro acc hacc _ entry hentry h hh
    exact hacc entry hentry h hh
  | cons g rest ih =>
    intro acc hacc hl entry hentry h hh
    refine ih _ ?_ (fun g' hg' => hl g' (List.mem_cons_of_mem _ hg')) entry hentry h hh
    intro entry0 hentry0 h0 hh0
    cases htr : truthyStr g.topic with
    | none =>
      simp only [htr] at hentry0
      exact hacc entry0 hentry0 h0 hh0
    | some t =>
      simp only [htr] at hentry0
      rcases insertTopicGroup_mem acc t g entry0 hentry0 h0 hh0 with ⟨e1, he1, hh1⟩ | rfl
      · exact hacc e1 he1 h0 hh1
      · exact hl h0 (List.mem_cons_self _ _)

theorem mergeSemanticLoop_closed (t : String) (Q : CtxGroup → Prop)
    (hmerge : ∀ g1 g2, Q g1 → Q g2 → Q (mergeTopicGroups g1 g2 t)) :
    ∀ (n : ℕ) (l : List CtxGroup), l.length ≤ n → (∀ g ∈ l, Q g) →
      ∀ g ∈ mergeSemanticLoop t l, Q g := by
  intro n
  induction n with
  | zero =>
    intro l hn hall g hg
    have : l = [] := List.length_eq_zero.mp (Nat.le_zero.mp hn)
    subst this
    rw [mergeSemanticLoop] at hg
    cases hg
  | succ n ih =>
    intro l hn hall g hg
    match l, hg with
    | [], hg => rw [mergeSemanticLoop] at hg; cases hg
    | [g1], hg =>
      rw [mergeSemanticLoop] at hg
      rcases List.mem_singleton.mp hg with rfl
      exact hall _ (List.mem_singleton.mpr rfl)
    | g1 :: g2 :: rest, hg =>
      rw [mergeSemanticLoop] at hg
      split at hg
      · refine ih (mergeTopicGroups g1 g2 t :: rest) ?_ ?_ g hg
        · simp only [List.length_cons] at hn ⊢
          omega
        · intro g' hg'
          rcases List.mem_cons.mp hg' with rfl | hg''
          · exact hmerge g1 g2 (hall g1 (List.mem_cons_self _ _))
              (hall g2 (List.mem_cons_of_mem _ (List.mem_cons_self _ _)))
          · exact hall g' (List.mem_cons_of_mem _ (List.mem_cons_of_mem _ hg''))
      · rcases List.mem_cons.mp hg with rfl | hg'
        · exact hall g (List.mem_cons_self _ _)
        · refine ih (g2 :: rest) ?_ ?_ g hg'
          · simp only [List.length_cons] at hn ⊢
            omega
          · intro g' hg''
            exact hall g' (List.mem_cons_of_mem _ hg'')

theorem updates_foldl_invariant (R : CtxGroup → Prop)
    (oracle : List CtxGroup → List CtxGroup) :
    ∀ (tgl : List (String × List CtxGroup)) (acc : List CtxGroup),
      (∀ u ∈ acc, R u) →
      (∀ tg ∈ tgl, ∀ u ∈ mergeSemanticGroups oracle tg.2 tg.1, R u) →
      ∀ u ∈ tgl.foldl
        (fun acc tg =>
          if tg.2.length > 1 then acc ++ mergeSemanticGroups oracle tg.2 tg.1 else acc)
        acc, R u := by
  intro tgl
  induction tgl with
  | nil =>
    intro acc hacc _ u hu
    exact hacc u hu
  | cons tg rest ih =>
    intro acc hacc htg u hu
    refine ih _ ?_ (fun tg' htg' => htg tg' (List.mem_cons_of_mem _ htg')) u hu
    intro u0 hu0
    by_cases hl : tg.2.length > 1
    · have hu0' : u0 ∈ acc ++ mergeSemanticGroups oracle tg.2 tg.1 := by
        simpa [hl] using hu0
      rcases List.mem_append.mp hu0' with h1 | h1
      · exact hacc u0 h1
      · exact htg tg (List.mem_cons_self _ _) u0 h1
    · have hu0' : u0 ∈ acc := by
        simpa [hl] using hu0
      exact hacc u0 hu0'

theorem applySemanticGrouping_closed (Q : CtxGroup → Prop)
    (oracle : List CtxGroup → List CtxGroup)
    (horacle : ∀ gs, List.Perm (oracle gs) gs)
    (hmerge : ∀ g1 g2 t, Q g1 → Q g2 → Q (mergeTopicGroups g1 g2 t))
    (gs : List CtxGroup) (hall : ∀ g ∈ gs, Q g) :
    ∀ g ∈ applySemanticGrouping oracle gs, Q g := by
  intro g hg
  unfold applySemanticGrouping at hg
  obtain ⟨g0, hg0, heq⟩ := List.mem_map.mp hg
  have hupdates : ∀ u ∈ (buildTopicGroups gs).foldl
      (fun acc tg =>
        if tg.2.length > 1 then acc ++ mergeSemanticGroups oracle tg.2 tg.1 else acc)
      [], Q u := by
    refine updates_foldl_invariant Q oracle _ [] (by intro u hu; cases hu) ?_
    intro tg htg u hu
    have htopic : ∀ h ∈ tg.2, Q h := by
      intro h hh
      exact buildTopicGroups_invariant Q gs [] (by intro e he; cases he) hall tg htg h hh
    unfold mergeSemanticGroups at hu
    refine mergeSemanticLoop_closed tg.1 Q (fun g1 g2 => hmerge g1 g2 tg.1)
      (oracle tg.2).length (oracle tg.2) le_rfl ?_ u hu
    intro g' hg'
    exact htopic g' ((horacle tg.2).mem_iff.mp hg')
  rw [← heq]
  cases hfind : ((buildTopicGroups gs).foldl
      (fun acc tg =>
        if tg.2.length > 1 then acc ++ mergeSemanticGroups oracle tg.2 tg.1 else acc)
      []).find? (fun u => u.context.id = g0.context.id) with
  | none => simp only [hfind]; exact hall g0 hg0
  | some u =>
    simp only [hfind]
    exact hupdates u (List.mem_of_find?_eq_some hfind)

theorem mergeTopicGroups_context (g1 g2 : CtxGroup) (t : String) :
    (mergeTopicGroups g1 g2 t).context = g1.context := rfl

theorem mergeTopicGroups_elements (g1 g2 : CtxGroup) (t : String) :
    (mergeTopicGroups g1 g2 t).elements = g1.elements ++ g2.elements := rfl

theorem groupElements_facts (oracle : List CtxGroup → List CtxGroup)
    (horacle : ∀ gs, List.Perm (oracle gs) gs)
    (elements : List Element) (ctxs : List VisualContext) :
    ∀ g ∈ groupElementsByVisualContext oracle elements ctxs,
      g.context ∈ ctxs ∧
      ∀ x ∈ g.elements, x ∈ elements ∧ findBestVisualContext x ctxs ≠ none := by
  unfold groupElementsByVisualContext
  refine applySemanticGrouping_closed
    (fun g => g.context ∈ ctxs ∧
      ∀ x ∈ g.elements, x ∈ elements ∧ findBestVisualContext x ctxs ≠ none)
    oracle horacle ?_ _ ?_
  · intro g1 g2 t hq1 hq2
    refine ⟨by rw [mergeTopicGroups_context]; exact hq1.1, ?_⟩
    intro x hx
    rw [mergeTopicGroups_elements] at hx
    rcases List.mem_append.mp hx with h1 | h1
    · exact hq1.2 x h1
    · exact hq2.2 x h1
  · intro g hg
    constructor
    · obtain ⟨g0, hg0, hctx⟩ := assignElements_context elements (initGroups ctxs) g hg
      rw [hctx]
      exact (initGroups_prop ctxs g0 hg0).2
    · intro x hx
      rcases assignElements_elements elements (initGroups ctxs) g hg x hx with
        ⟨g0, hg0, hx0⟩ | h2
      · rw [(initGroups_prop ctxs g0 hg0).1] at hx0
        cases hx0
      · exact h2

theorem createIndividualSegments_textElementId (ct : String) (sid : ℚ) (cid : String) :
    ∀ (es : List Element) (i c : ℕ),
      ∀ s ∈ (createIndividualSegments ct sid cid es i c).1,
        ∃ x ∈ es, s.textElementId = x.id := by
  intro es
  induction es with
  | nil => intro i c s hs; cases hs
  | cons e rest ih =>
    intro i c s hs
    rw [createIndividualSegments] at hs
    cases hE : createIndividualSegments ct sid cid rest (i + 1) (c + 1) with
    | mk out c' =>
      rw [hE] at hs
      simp only at hs
      rcases List.mem_cons.mp hs with rfl | hs'
      · exact ⟨e, List.mem_cons_self _ _, rfl⟩
      · obtain ⟨x, hx, hid⟩ := ih (i + 1) (c + 1) s (by rw [hE]; exact hs')
        exact ⟨x, List.mem_cons_of_mem _ hx, hid⟩

theorem createContextSegments_textElementId (g : CtxGroup) (sid : ℚ) (cid : String)
    (c : ℕ) :
    ∀ s ∈ (createContextSegments g sid cid c).1,
      s.textElementId = "vc" ++ cid ++ "_combined" ∨
        ∃ x ∈ g.elements, s.textElementId = x.id := by
  intro s hs
  cases hel : g.elements with
  | nil =>
    rw [createContextSegments, hel] at hs
    cases hs
  | cons e es =>
    rw [createContextSegments_cons_eq g sid cid c e es hel] at hs
    rcases List.mem_cons.mp hs with rfl | hs'
    · exact Or.inl rfl
    · obtain ⟨x, hx, hid⟩ :=
        createIndividualSegments_textElementId g.context.type_ sid cid (e :: es) 0 (c + 1) s hs'
      exact Or.inr ⟨x, hx, hid⟩

theorem contextSegmentsLoop_textElementId (sid : ℚ) :
    ∀ (groups : List CtxGroup) (c : ℕ),
      ∀ s ∈ (contextSegmentsLoop sid groups c).1,
        ∃ g ∈ groups,
          (s.textElementId = "vc" ++ g.context.id ++ "_combined" ∨
            ∃ x ∈ g.elements, s.textElementId = x.id) := by
  intro groups
  induction groups with
  | nil => intro c s hs; cases hs
  | cons g rest ih =>
    intro c s hs
    have hred : (contextSegmentsLoop sid (g :: rest) c).1 =
        (createContextSegments g sid g.context.id c).1 ++
          (contextSegmentsLoop sid rest (createContextSegments g sid g.context.id c).2).1 := rfl
    rw [hred] at hs
    rcases List.mem_append.mp hs with h1 | h1
    · exact ⟨g, List.mem_cons_self _ _,
        createContextSegments_textElementId g sid g.context.id c s h1⟩
    · obtain ⟨g', hg', hcase⟩ :=
        ih (createContextSegments g sid g.context.id c).2 s h1
      exact ⟨g', List.mem_cons_of_mem _ hg', hcase⟩

theorem standaloneSegments_filter_map (sid : ℚ) (fid : String) :
    ∀ (es : List Element) (i c : ℕ),
      (((standaloneSegments sid es i c).1.filter
          (fun s => s.textElementId = fid)).map (·.visualContextId)) =
        (es.filter (fun t => t.id = fid)).map (fun _ => "individual") := by
  intro es
  induction es with
  | nil => intro i c; rfl
  | cons e rest ih =>
    intro i c
    have hred : (standaloneSegments sid (e :: rest) i c).1 =
        (createTextElementSegment e sid i c).1 ::
          (standaloneSegments sid rest (i + 1) (c + 1)).1 := rfl
    rw [hred]
    by_cases he : e.id = fid
    · have h1 : (createTextElementSegment e sid i c).1.textElementId = fid := he
      simp only [List.filter_cons, decide_eq_true h1, decide_eq_true he, if_true,
        List.map_cons]
      rw [ih (i + 1) (c + 1)]
      rfl
    · have h1 : ¬ (createTextElementSegment e sid i c).1.textElementId = fid := he
      simp only [List.filter_cons, decide_eq_false h1, decide_eq_false he,
        Bool.false_eq_true, if_false]
      exact ih (i + 1) (c + 1)

/-- C5: region assignment returns the first region attaining the strictly
highest composite score (ties in score are impossible for the winner
against earlier regions, so first-seen order wins), returns `null` when no
region scores strictly above `0`, and for an unassigned fragment the
builder emits only the standalone classifier-based segment referencing it
(no combined or individual segment), provided the fragment's id is unique
among the slide's elements and does not collide with the synthetic
combined-segment ids. -/
theorem C5_region_assignment (e : Element) (ctxs : List VisualContext) :
    (findBestVisualContext e ctxs = none ↔
      ∀ ctx ∈ ctxs, jsGt (calculateContextScore e ctx) (JSNum.fin 0) = false) ∧
    (∀ r, findBestVisualContext e ctxs = some r →
      r ∈ ctxs ∧
      jsGt (calculateContextScore e r) (JSNum.fin 0) = true ∧
      (∀ ctx ∈ ctxs, jsGt (calculateContextScore e ctx) (calculateContextScore e r) = false) ∧
      ∃ i, ∃ h : i < ctxs.length, ctxs.get ⟨i, h⟩ = r ∧
        ∀ j, ∀ hj : j < ctxs.length, j < i →
          calculateContextScore e (ctxs.get ⟨j, hj⟩) ≠ calculateContextScore e r) ∧
    (∀ (oracle : List CtxGroup → List CtxGroup) (slide : Slide) (c : ℕ),
      (∀ gs, List.Perm (oracle gs) gs) →
      slide.textElements.filter (fun t => t.id = e.id) = [e] →
      findBestVisualContext e slide.visualContexts = none →
      (∀ ctx ∈ slide.visualContexts, e.id ≠ "vc" ++ ctx.id ++ "_combined") →
      ((processSlideSegmentation oracle slide c).1.filter
          (fun s => s.textElementId = e.id)).map (·.visualContextId) = ["individual"]) := by
  have hfin : (JSNum.fin 0) ≠ JSNum.nan := fun h => JSNum.noConfusion h
  obtain ⟨h1, h2, h3⟩ := findBestAux_invariant e ctxs none (JSNum.fin 0) hfin
  refine ⟨⟨?_, ?_⟩, ?_, ?_⟩
  · intro hnone
    rcases h3 with ⟨_, hs2⟩ | ⟨_, i, hi, hb2, _, _⟩
    · intro ctx hctx
      have := h2 ctx hctx
      rw [hs2] at this
      exact this
    · unfold findBestVisualContext at hnone
      rw [hnone] at hb2
      cases hb2
  · intro hall
    unfold findBestVisualContext
    rw [findBestAux_no_update e ctxs none (JSNum.fin 0) hall]
  · intro r hr
    unfold findBestVisualContext at hr
    rcases h3 with ⟨hb, _⟩ | ⟨hgt0, i, hi, hb2, hs3, hall⟩
    · rw [hr] at hb
      cases hb
    · rw [hr] at hb2
      have hri : r = ctxs.get ⟨i, hi⟩ := Option.some.inj hb2
      subst hri
      refine ⟨List.get_mem _ _ _, ?_, ?_, i, hi, rfl, ?_⟩
      · rw [← hs3]; exact hgt0
      · intro ctx hctx
        have := h2 ctx hctx
        rw [hs3] at this
        exact this
      · intro j hj hji
        rcases hall j hj hji with hnan | hbeat
        · rw [hnan, ← hs3]
          intro hcontra
          exact h1 hcontra.symm
        · rw [← hs3]
          intro hcontra
          exact absurd hcontra.symm (jsGt_true_ne hbeat)
  · intro oracle slide c horacle hfilter hnone hid
    have hfacts := groupElements_facts oracle horacle slide.textElements slide.visualContexts
    have hred : (processSlideSegmentation oracle slide c).1 =
        (contextSegmentsLoop slide.slideId
            (groupElementsByVisualContext oracle slide.textElements slide.visualContexts) c).1 ++
          (standaloneSegments slide.slideId slide.textElements 0
            (contextSegmentsLoop slide.slideId
              (groupElementsByVisualContext oracle slide.textElements slide.visualContexts) c).2).1 := rfl
    rw [hred, List.filter_append, List.map_append]
    have hctxnil : ((contextSegmentsLoop slide.slideId
        (groupElementsByVisualContext oracle slide.textElements slide.visualContexts) c).1.filter
          (fun s => s.textElementId = e.id)) = [] := by
      refine List.filter_eq_nil_iff.mpr ?_
      intro s hs
      obtain ⟨g, hg, hcase⟩ := contextSegmentsLoop_textElementId slide.slideId _ c s hs
      obtain ⟨hctx, helem⟩ := hfacts g hg
      simp only [decide_eq_true_eq]
      intro hpred
      rcases hcase with hcomb | ⟨x, hx, hxid⟩
      · exact hid g.context hctx (by rw [← hpred, hcomb])
      · have hxf : x.id = e.id := by rw [← hxid, hpred]
        have hxmem : x ∈ slide.textElements.filter (fun t => t.id = e.id) :=
          List.mem_filter.mpr ⟨(helem x hx).1, decide_eq_true hxf⟩
        rw [hfilter] at hxmem
        have hxe : x = e := List.mem_singleton.mp hxmem
        rw [hxe] at hx
        exact (helem e hx).2 hnone
    rw [hctxnil]
    simp only [List.map_nil, List.nil_append]
    rw [standaloneSegments_filter_map slide.slideId e.id slide.textElements 0 _, hfilter]
    rfl

/-- Witness for C5 at a concrete unassigned fragment on a slide with no
regions. -/
theorem C5_region_assignment_witness :
    ((processSlideSegmentation (fun gs => gs)
        { slideId := 1,
          textElements := [{ id := "t1", text := "Hello", boundingBox := ⟨0, 0, 10, 10⟩,
                             fontSize := none, isBold := none }],
          visualContexts := [] } 0).1.filter
      (fun s => s.textElementId =
        ({ id := "t1", text := "Hello", boundingBox := ⟨0, 0, 10, 10⟩,
           fontSize := none, isBold := none } : Element).id)).map (·.visualContextId) =
      ["individual"] := by
  refine (C5_region_assignment
    { id := "t1", text := "Hello", boundingBox := ⟨0, 0, 10, 10⟩,
      fontSize := none, isBold := none } []).2.2
    (fun gs => gs)
    { slideId := 1,
      textElements := [{ id := "t1", text := "Hello", boundingBox := ⟨0, 0, 10, 10⟩,
                         fontSize := none, isBold := none }],
      visualContexts := [] } 0
    (fun gs => List.Perm.refl gs) (by decide) rfl ?_
  intro ctx hctx
  cases hctx

theorem digitChar_lt_ne_underscore : ∀ k, k < 10 → digitChar k ≠ '_' := by decide

theorem digitChar_lt_inj : ∀ a, a < 10 → ∀ b, b < 10 → digitChar a = digitChar b → a = b := by
  decide

theorem natDigits_eq (n : ℕ) :
    natDigits n = if n < 10 then [digitChar n]
      else natDigits (n / 10) ++ [digitChar (n % 10)] := by
  rw [natDigits]
  split
  · rfl
  · rfl

theorem natDigits_ne_nil (n : ℕ) : natDigits n ≠ [] := by
  rw [natDigits_eq]
  split
  · simp
  · simp

theorem natDigits_digits :
    ∀ n, ∀ c ∈ natDigits n, ∃ k, k < 10 ∧ c = digitChar k := by
  intro n
  induction n using Nat.strong_induction_on with
  | _ n ih =>
    intro c hc
    rw [natDigits_eq] at hc
    by_cases h : n < 10
    · rw [if_pos h] at hc
      rcases List.mem_singleton.mp hc with rfl
      exact ⟨n, h, rfl⟩
    · rw [if_neg h] at hc
      rcases List.mem_append.mp hc with h1 | h1
      · exact ih (n / 10) (Nat.div_lt_self (by omega) (by omega)) c h1
      · rcases List.mem_singleton.mp h1 with rfl
        exact ⟨n % 10, Nat.mod_lt _ (by omega), rfl⟩

theorem natDigits_ne_underscore (n : ℕ) : ∀ c ∈ natDigits n, c ≠ '_' := by
  intro c hc
  obtain ⟨k, hk, rfl⟩ := natDigits_digits n c hc
  exact digitChar_lt_ne_underscore k hk

theorem natDigits_inj : ∀ a b : ℕ, natDigits a = natDigits b → a = b := by
  intro a
  induction a using Nat.strong_induction_on with
  | _ a ih =>
    intro b heq
    by_cases ha : a < 10
    · by_cases hb : b < 10
      · have ea : natDigits a = [digitChar a] := by rw [natDigits_eq]; rw [if_pos ha]
        have eb : natDigits b = [digitChar b] := by rw [natDigits_eq]; rw [if_pos hb]
        rw [ea, eb] at heq
        exact digitChar_lt_inj a ha b hb (List.cons.injEq _ _ _ _ ▸ heq :
          _ ∧ _).1
      · exfalso
        have ea : natDigits a = [digitChar a] := by rw [natDigits_eq]; rw [if_pos ha]
        have eb : natDigits b = natDigits (b / 10) ++ [digitChar (b % 10)] := by
          rw [natDigits_eq]; rw [if_neg hb]
        rw [ea, eb] at heq
        have hlen := congrArg List.length heq
        simp only [List.length_singleton, List.length_append] at hlen
        have hne := natDigits_ne_nil (b / 10)
        have : 0 < (natDigits (b / 10)).length := List.length_pos.mpr hne
        omega
    · by_cases hb : b < 10
      · exfalso
        have ea : natDigits a = natDigits (a / 10) ++ [digitChar (a % 10)] := by
          rw [natDigits_eq]; rw [if_neg ha]
        have eb : natDigits b = [digitChar b] := by rw [natDigits_eq]; rw [if_pos hb]
        rw [ea, eb] at heq
        have hlen := congrArg List.length heq
        simp only [List.length_singleton, List.length_append] at hlen
        have hne := natDigits_ne_nil (a / 10)
        have : 0 < (natDigits (a / 10)).length := List.length_pos.mpr hne
        omega
      · have ea : natDigits a = natDigits (a / 10) ++ [digitChar (a % 10)] := by
          rw [natDigits_eq]; rw [if_neg ha]
        have eb : natDigits b = natDigits (b / 10) ++ [digitChar (b % 10)] := by
          rw [natDigits_eq]; rw [if_neg hb]
        rw [ea, eb] at heq
        obtain ⟨hpre, hlast⟩ := List.append_inj' heq rfl
        have hdiv : a / 10 = b / 10 :=
          ih (a / 10) (Nat.div_lt_self (by omega) (by omega)) (b / 10) hpre
        have hmodc : digitChar (a % 10) = digitChar (b % 10) :=
          (List.cons.injEq _ _ _ _ ▸ hlast : _ ∧ _).1
        have hmod : a % 10 = b % 10 :=
          digitChar_lt_inj _ (Nat.mod_lt _ (by omega)) _ (Nat.mod_lt _ (by omega)) hmodc
        omega

theorem takeWhile_append_sep :
    ∀ (l1 l2 : List Char), (∀ c ∈ l1, c ≠ '_') →
      (l1 ++ '_' :: l2).takeWhile (fun c => c ≠ '_') = l1 := by
  intro l1
  induction l1 with
  | nil =>
    intro l2 _
    simp [List.takeWhile_cons]
  | cons c t ih =>
    intro l2 h
    have hc : c ≠ '_' := h c (List.mem_cons_self _ _)
    simp only [List.cons_append, List.takeWhile_cons, decide_eq_true hc, if_true]
    rw [ih l2 (fun c' hc' => h c' (List.mem_cons_of_mem _ hc'))]

theorem lastUnderscoreToken_append (base num : List Char)
    (h : ∀ c ∈ num, c ≠ '_') :
    lastUnderscoreToken (base ++ '_' :: num) = num := by
  unfold lastUnderscoreToken
  have hrev : (base ++ '_' :: num).reverse = num.reverse ++ '_' :: base.reverse := by
    simp
  rw [hrev, takeWhile_append_sep _ _ (fun c hc => h c (List.mem_reverse.mp hc))]
  exact List.reverse_reverse num

theorem lastUnderscoreToken_counter (p : String) (k : ℕ) :
    lastUnderscoreToken (p ++ "_" ++ natToString k).data = natDigits k := by
  have hdata : (p ++ "_" ++ natToString k).data = p.data ++ '_' :: natDigits k := by
    simp [String.data_append, natToString]
  rw [hdata]
  exact lastUnderscoreToken_append p.data (natDigits k) (natDigits_ne_underscore k)

theorem segTag_createTextElementSegment (e : Element) (sid : ℚ) (i c : ℕ) :
    segTag (createTextElementSegment e sid i c).1 = natDigits c :=
  lastUnderscoreToken_counter _ c

theorem segTag_mergeSegments (segments : List Segment) (c : ℕ) :
    segTag (mergeSegments segments c).1 = natDigits c :=
  lastUnderscoreToken_counter _ c

theorem createIndividualSegments_cons (ct : String) (sid : ℚ) (cid : String)
    (e : Element) (rest : List Element) (i c : ℕ) :
    createIndividualSegments ct sid cid (e :: rest) i c =
      ({ id := "s" ++ ratToString sid ++ "_vc" ++ cid ++ "_elem" ++
              natToString i ++ "_" ++ natToString c,
         slideId := sid, textElementId := e.id, visualContextId := cid,
         coordinates := e.boundingBox, text := e.text,
         visualContext := ct, confidence := "medium",
         notes := "Individual element within " ++ ct ++ " context",
         isCombined := false, parentContextId := some cid } ::
        (createIndividualSegments ct sid cid rest (i + 1) (c + 1)).1,
       (createIndividualSegments ct sid cid rest (i + 1) (c + 1)).2) := rfl

theorem createIndividualSegments_tags (ct : String) (sid : ℚ) (cid : String) :
    ∀ (es : List Element) (i c : ℕ),
      (createIndividualSegments ct sid cid es i c).2 = c + es.length ∧
      ((createIndividualSegments ct sid cid es i c).1.map segTag).Nodup ∧
      ∀ s ∈ (createIndividualSegments ct sid cid es i c).1,
        ∃ k, c ≤ k ∧ k < c + es.length ∧ segTag s = natDigits k := by
  intro es
  induction es with
  | nil =>
    intro i c
    refine ⟨by simp [createIndividualSegments], by simp [createIndividualSegments], ?_⟩
    intro s hs
    cases hs
  | cons e rest ih =>
    intro i c
    obtain ⟨ih1, ih2, ih3⟩ := ih (i + 1) (c + 1)
    rw [createIndividualSegments_cons]
    have htag : segTag
        { id := "s" ++ ratToString sid ++ "_vc" ++ cid ++ "_elem" ++
            natToString i ++ "_" ++ natToString c,
          slideId := sid, textElementId := e.id, visualContextId := cid,
          coordinates := e.boundingBox, text := e.text,
          visualContext := ct, confidence := "medium",
          notes := "Individual element within " ++ ct ++ " context",
          isCombined := false, parentContextId := some cid : Segment } = natDigits c :=
      lastUnderscoreToken_counter _ c
    simp only [List.map_cons, List.nodup_cons, List.length_cons]
    refine ⟨by omega, ⟨?_, ih2⟩, ?_⟩
    · rw [htag]
      intro hmem
      obtain ⟨s, hs, htag2⟩ := List.mem_map.mp hmem
      obtain ⟨k, hk1, _, htag3⟩ := ih3 s hs
      rw [htag3] at htag2
      have := natDigits_inj _ _ htag2
      omega
    · intro s hs
      rcases List.mem_cons.mp hs with rfl | hs'
      · exact ⟨c, le_rfl, by omega, htag⟩
      · obtain ⟨k, hk1, hk2, hk3⟩ := ih3 s hs'
        exact ⟨k, by omega, by omega, hk3⟩

theorem createContextSegments_tags (g : CtxGroup) (sid : ℚ) (cid : String) (c : ℕ) :
    c ≤ (createContextSegments g sid cid c).2 ∧
    ((createContextSegments g sid cid c).1.map segTag).Nodup ∧
    ∀ s ∈ (createContextSegments g sid cid c).1,
      ∃ k, c ≤ k ∧ k < (createContextSegments g sid cid c).2 ∧ segTag s = natDigits k := by
  cases hel : g.elements with
  | nil =>
    simp only [createContextSegments, hel]
    refine ⟨le_rfl, by simp, ?_⟩
    intro s hs
    cases hs
  | cons e es =>
    obtain ⟨hi1, hi2, hi3⟩ := createIndividualSegments_tags g.context.type_ sid cid (e :: es) 0 (c + 1)
    have hfst := createContextSegments_cons_eq g sid cid c e es hel
    have hsnd : (createContextSegments g sid cid c).2 =
        (createIndividualSegments g.context.type_ sid cid (e :: es) 0 (c + 1)).2 := by
      simp only [createContextSegments, hel]
    have htag : segTag
        { id := "s" ++ ratToString sid ++ "_vc" ++ cid ++ "_combined" ++
            "_" ++ natToString c,
          slideId := sid, textElementId := "vc" ++ cid ++ "_combined",
          visualContextId := cid,
          coordinates := calculateCombinedBoundingBox (e.boundingBox :: es.map (·.boundingBox)),
          text := " ".intercalate (e.text :: es.map (·.text)),
          visualContext := g.context.type_,
          confidence := "high",
          notes := "Combined " ++ g.context.type_ ++ " context with " ++
            natToString (es.length + 1) ++ " elements",
          isCombined := true, elementCount := some (es.length + 1) : Segment } = natDigits c :=
      lastUnderscoreToken_counter _ c
    rw [hfst, hsnd, hi1]
    simp only [List.map_cons, List.nodup_cons, List.length_cons]
    refine ⟨by omega, ⟨?_, hi2⟩, ?_⟩
    · rw [htag]
      intro hmem
      obtain ⟨s, hs, htag2⟩ := List.mem_map.mp hmem
      obtain ⟨k, hk1, _, htag3⟩ := hi3 s hs
      rw [htag3] at htag2
      have := natDigits_inj _ _ htag2
      omega
    · intro s hs
      rcases List.mem_cons.mp hs with rfl | hs'
      · exact ⟨c, le_rfl, by omega, htag⟩
      · obtain ⟨k, hk1, hk2, hk3⟩ := hi3 s hs'
        simp only [List.length_cons] at hk2
        exact ⟨k, by omega, by omega, hk3⟩

theorem tags_append (A B : List Segment) (c0 c1 c2 : ℕ)
    (hc01 : c0 ≤ c1)
    (hA2 : (A.map segTag).Nodup)
    (hA3 : ∀ s ∈ A, ∃ k, c0 ≤ k ∧ k < c1 ∧ segTag s = natDigits k)
    (hB2 : (B.map segTag).Nodup)
    (hB3 : ∀ s ∈ B, ∃ k, c1 ≤ k ∧ k < c2 ∧ segTag s = natDigits k) :
    (((A ++ B).map segTag).Nodup) ∧
    ∀ s ∈ A ++ B, ∃ k, c0 ≤ k ∧ k < max c1 c2 ∧ segTag s = natDigits k := by
  constructor
  · rw [List.map_append]
    refine List.Nodup.append hA2 hB2 ?_
    rw [List.disjoint_left]
    intro t htA htB
    obtain ⟨sa, hsa, hta⟩ := List.mem_map.mp htA
    obtain ⟨sb, hsb, htb⟩ := List.mem_map.mp htB
    obtain ⟨ka, _, hka2, hka3⟩ := hA3 sa hsa
    obtain ⟨kb, hkb1, _, hkb3⟩ := hB3 sb hsb
    rw [← hta] at htb
    rw [hka3] at htb
    rw [hkb3] at htb
    have := natDigits_inj _ _ htb
    omega
  · intro s hs
    rcases List.mem_append.mp hs with h1 | h1
    · obtain ⟨k, hk1, hk2, hk3⟩ := hA3 s h1
      exact ⟨k, hk1, lt_max_of_lt_left hk2, hk3⟩
    · obtain ⟨k, hk1, hk2, hk3⟩ := hB3 s h1
      exact ⟨k, by omega, lt_max_of_lt_right hk2, hk3⟩

theorem contextSegmentsLoop_cons (sid : ℚ) (g : CtxGroup) (rest : List CtxGroup)
    (c : ℕ) :
    contextSegmentsLoop sid (g :: rest) c =
      ((createContextSegments g sid g.context.id c).1 ++
        (contextSegmentsLoop sid rest (createContextSegments g sid g.context.id c).2).1,
       (contextSegmentsLoop sid rest (createContextSegments g sid g.context.id c).2).2) := rfl

theorem contextSegmentsLoop_tags (sid : ℚ) :
    ∀ (groups : List CtxGroup) (c : ℕ),
      c ≤ (contextSegmentsLoop sid groups c).2 ∧
      ((contextSegmentsLoop sid groups c).1.map segTag).Nodup ∧
      ∀ s ∈ (contextSegmentsLoop sid groups c).1,
        ∃ k, c ≤ k ∧ k < (contextSegmentsLoop sid groups c).2 ∧ segTag s = natDigits k := by
  intro groups
  induction groups with
  | nil =>
    intro c
    refine ⟨le_rfl, by simp [contextSegmentsLoop], ?_⟩
    intro s hs
    cases hs
  | cons g rest ih =>
    intro c
    obtain ⟨hg1, hg2, hg3⟩ := createContextSegments_tags g sid g.context.id c
    obtain ⟨hr1, hr2, hr3⟩ := ih (createContextSegments g sid g.context.id c).2
    rw [contextSegmentsLoop_cons]
    obtain ⟨hnd, hall⟩ := tags_append _ _ c (createContextSegments g sid g.context.id c).2
      (contextSegmentsLoop sid rest (createContextSegments g sid g.context.id c).2).2
      hg1 hg2 hg3 hr2 hr3
    refine ⟨le_trans hg1 hr1, hnd, ?_⟩
    intro s hs
    obtain ⟨k, hk1, hk2, hk3⟩ := hall s hs
    exact ⟨k, hk1, by simp only [max_def] at hk2; split at hk2 <;> omega, hk3⟩

theorem standaloneSegments_cons (sid : ℚ) (e : Element) (rest : List Element)
    (i c : ℕ) :
    standaloneSegments sid (e :: rest) i c =
      ((createTextElementSegment e sid i c).1 ::
        (standaloneSegments sid rest (i + 1) (c + 1)).1,
       (standaloneSegments sid rest (i + 1) (c + 1)).2) := rfl

theorem standaloneSegments_tags (sid : ℚ) :
    ∀ (es : List Element) (i c : ℕ),
      (standaloneSegments sid es i c).2 = c + es.length ∧
      ((standaloneSegments sid es i c).1.map segTag).Nodup ∧
      ∀ s ∈ (standaloneSegments sid es i c).1,
        ∃ k, c ≤ k ∧ k < c + es.length ∧ segTag s = natDigits k := by
  intro es
  induction es with
  | nil =>
    intro i c
    refine ⟨by simp [standaloneSegments], by simp [standaloneSegments], ?_⟩
    intro s hs
    cases hs
  | cons e rest ih =>
    intro i c
    obtain ⟨ih1, ih2, ih3⟩ := ih (i + 1) (c + 1)
    rw [standaloneSegments_cons]
    simp only [List.map_cons, List.nodup_cons, List.length_cons,
      segTag_createTextElementSegment]
    refine ⟨by omega, ⟨?_, ih2⟩, ?_⟩
    · intro hmem
      obtain ⟨s, hs, htag2⟩ := List.mem_map.mp hmem
      obtain ⟨k, hk1, _, htag3⟩ := ih3 s hs
      rw [htag3] at htag2
      have := natDigits_inj _ _ htag2
      omega
    · intro s hs
      rcases List.mem_cons.mp hs with rfl | hs'
      · exact ⟨c, le_rfl, by omega, segTag_createTextElementSegment e sid i c⟩
      · obtain ⟨k, hk1, hk2, hk3⟩ := ih3 s hs'
        exact ⟨k, by omega, by omega, hk3⟩

theorem processSlideSegmentation_tags (oracle : List CtxGroup → List CtxGroup)
    (slide : Slide) (c : ℕ) :
    c ≤ (processSlideSegmentation oracle slide c).2 ∧
    ((processSlideSegmentation oracle slide c).1.map segTag).Nodup ∧
    ∀ s ∈ (processSlideSegmentation oracle slide c).1,
      ∃ k, c ≤ k ∧ k < (processSlideSegmentation oracle slide c).2 ∧
        segTag s = natDigits k := by
  obtain ⟨h11, h12, h13⟩ := contextSegmentsLoop_tags slide.slideId
    (groupElementsByVisualContext oracle slide.textElements slide.visualContexts) c
  obtain ⟨h21, h22, h23⟩ := standaloneSegments_tags slide.slideId slide.textElements 0
    (contextSegmentsLoop slide.slideId
      (groupElementsByVisualContext oracle slide.textElements slide.visualContexts) c).2
  have hred : processSlideSegmentation oracle slide c =
      ((contextSegmentsLoop slide.slideId
          (groupElementsByVisualContext oracle slide.textElements slide.visualContexts) c).1 ++
        (standaloneSegments slide.slideId slide.textElements 0
          (contextSegmentsLoop slide.slideId
            (groupElementsByVisualContext oracle slide.textElements slide.visualContexts) c).2).1,
       (standaloneSegments slide.slideId slide.textElements 0
          (contextSegmentsLoop slide.slideId
            (groupElementsByVisualContext oracle slide.textElements slide.visualContexts) c).2).2) := rfl
  rw [hred]
  obtain ⟨hnd, hall⟩ := tags_append _ _ c _ _ h11 h12 h13 h22 h23
  refine ⟨?_, hnd, ?_⟩
  · show c ≤ (standaloneSegments slide.slideId slide.textElements 0
      (contextSegmentsLoop slide.slideId
        (groupElementsByVisualContext oracle slide.textElements slide.visualContexts) c).2).2
    rw [h21]
    omega
  · intro s hs
    obtain ⟨k, hk1, hk2, hk3⟩ := hall s hs
    refine ⟨k, hk1, ?_, hk3⟩
    show k < (standaloneSegments slide.slideId slide.textElements 0
      (contextSegmentsLoop slide.slideId
        (groupElementsByVisualContext oracle slide.textElements slide.visualContexts) c).2).2
    rw [h21]
    simp only [max_def] at hk2
    split at hk2 <;> omega

theorem generateSegmentationAux_cons (oracle : List CtxGroup → List CtxGroup)
    (slide : Slide) (rest : List Slide) (c : ℕ) :
    generateSegmentationAux oracle (slide :: rest) c =
      ((processSlideSegmentation oracle slide c).1 ++
        (generateSegmentationAux oracle rest (processSlideSegmentation oracle slide c).2).1,
       (generateSegmentationAux oracle rest (processSlideSegmentation oracle slide c).2).2) := rfl

theorem generateSegmentationAux_tags (oracle : List CtxGroup → List CtxGroup) :
    ∀ (slides : List Slide) (c : ℕ),
      c ≤ (generateSegmentationAux oracle slides c).2 ∧
      ((generateSegmentationAux oracle slides c).1.map segTag).Nodup ∧
      ∀ s ∈ (generateSegmentationAux oracle slides c).1,
        ∃ k, c ≤ k ∧ k < (generateSegmentationAux oracle slides c).2 ∧
          segTag s = natDigits k := by
  intro slides
  induction slides with
  | nil =>
    intro c
    refine ⟨le_rfl, by simp [generateSegmentationAux], ?_⟩
    intro s hs
    cases hs
  | cons slide rest ih =>
    intro c
    obtain ⟨hg1, hg2, hg3⟩ := processSlideSegmentation_tags oracle slide c
    obtain ⟨hr1, hr2, hr3⟩ := ih (processSlideSegmentation oracle slide c).2
    rw [generateSegmentationAux_cons]
    obtain ⟨hnd, hall⟩ := tags_append _ _ c (processSlideSegmentation oracle slide c).2
      (generateSegmentationAux oracle rest (processSlideSegmentation oracle slide c).2).2
      hg1 hg2 hg3 hr2 hr3
    refine ⟨le_trans hg1 hr1, hnd, ?_⟩
    intro s hs
    obtain ⟨k, hk1, hk2, hk3⟩ := hall s hs
    exact ⟨k, hk1, by simp only [max_def] at hk2; split at hk2 <;> omega, hk3⟩

theorem removeDuplicatesAux_sublist :
    ∀ (l : List Segment) (seen : List (ℚ × String × ℚ × ℚ)),
      List.Sublist (removeDuplicatesAux seen l) l := by
  intro l
  induction l with
  | nil => intro seen; exact List.Sublist.refl []
  | cons s rest ih =>
    intro seen
    by_cases h : segmentKey s ∈ seen
    · simp only [removeDuplicatesAux, if_pos h]
      exact List.Sublist.cons s (ih seen)
    · simp only [removeDuplicatesAux, if_neg h]
      exact List.Sublist.cons₂ s (ih (segmentKey s :: seen))

theorem mergeSimilar_tags :
    ∀ (n : ℕ) (l : List Segment) (c : ℕ), l.length ≤ n →
      (∀ s ∈ l, ∃ k, k < c ∧ segTag s = natDigits k) →
      ((l.map segTag).Nodup) →
      c ≤ (mergeSimilarSegments l c).2 ∧
      ((mergeSimilarSegments l c).1.map segTag).Nodup ∧
      ∀ s ∈ (mergeSimilarSegments l c).1,
        ∃ k, k < (mergeSimilarSegments l c).2 ∧ segTag s = natDigits k ∧
          (segTag s ∈ l.map segTag ∨ c ≤ k) := by
  intro n
  induction n with
  | zero =>
    intro l c hn _ _
    have : l = [] := List.length_eq_zero.mp (Nat.le_zero.mp hn)
    subst this
    refine ⟨by simp [mergeSimilarSegments], by simp [mergeSimilarSegments], ?_⟩
    intro s hs
    simp [mergeSimilarSegments] at hs
  | succ n ih =>
    intro l c hn hin hnd
    cases l with
    | nil =>
      refine ⟨by simp [mergeSimilarSegments], by simp [mergeSimilarSegments], ?_⟩
      intro s hs
      simp [mergeSimilarSegments] at hs
    | cons s rest =>
      have hsubl : List.Sublist (rest.filter (fun t => !areSegmentsSimilar s t)) rest :=
        List.filter_sublist rest
      have hlen : (rest.filter (fun t => !areSegmentsSimilar s t)).length ≤ n := by
        have := hsubl.length_le
        simp only [List.length_cons] at hn
        omega
      have hnd_rest : ((rest.map segTag)).Nodup := (List.nodup_cons.mp hnd).2
      have hnd' : (((rest.filter (fun t => !areSegmentsSimilar s t)).map segTag)).Nodup :=
        (hsubl.map segTag).nodup hnd_rest
      have hs_notin : segTag s ∉ rest.map segTag := (List.nodup_cons.mp hnd).1
      obtain ⟨ks, hks_lt, hks_eq⟩ := hin s (List.mem_cons_self _ _)
      by_cases hsim : (rest.filter (fun t => areSegmentsSimilar s t)).isEmpty = true
      · rw [mergeSimilar_cons_neg s rest c hsim]
        have hin' : ∀ t ∈ rest.filter (fun t => !areSegmentsSimilar s t),
            ∃ k, k < c ∧ segTag t = natDigits k :=
          fun t ht => hin t (List.mem_cons_of_mem _ (List.mem_of_mem_filter ht))
        obtain ⟨ih1, ih2, ih3⟩ := ih _ c hlen hin' hnd'
        refine ⟨ih1, ?_, ?_⟩
        · simp only [List.map_cons, List.nodup_cons]
          refine ⟨?_, ih2⟩
          intro hmem
          obtain ⟨t, ht, htag⟩ := List.mem_map.mp hmem
          obtain ⟨k, hk1, hk2, hk3⟩ := ih3 t ht
          rcases hk3 with hold | hnew
          · have : segTag t ∈ rest.map segTag := by
              obtain ⟨t2, ht2, htag2⟩ := List.mem_map.mp hold
              exact List.mem_map.mpr ⟨t2, List.mem_of_mem_filter ht2, htag2⟩
            rw [htag] at this
            exact hs_notin this
          · rw [hks_eq] at htag
            rw [hk2] at htag
            have := natDigits_inj _ _ htag
            omega
        · intro t ht
          rcases List.mem_cons.mp ht with rfl | ht'
          · exact ⟨ks, by omega, hks_eq, Or.inl (by
              exact List.mem_map.mpr ⟨t, List.mem_cons_self _ _, rfl⟩)⟩
          · obtain ⟨k, hk1, hk2, hk3⟩ := ih3 t ht'
            refine ⟨k, hk1, hk2, ?_⟩
            rcases hk3 with hold | hnew
            · refine Or.inl ?_
              obtain ⟨t2, ht2, htag2⟩ := List.mem_map.mp hold
              exact List.mem_map.mpr
                ⟨t2, List.mem_cons_of_mem _ (List.mem_of_mem_filter ht2), htag2⟩
            · exact Or.inr hnew
      · have hsim' : (rest.filter (fun t => areSegmentsSimilar s t)).isEmpty = false := by
          simpa using hsim
        rw [mergeSimilar_cons_pos s rest c hsim']
        have hmc : (mergeSegments (s :: rest.filter (fun t => areSegmentsSimilar s t)) c).2 =
            c + 1 := rfl
        rw [hmc]
        have hin' : ∀ t ∈ rest.filter (fun t => !areSegmentsSimilar s t),
            ∃ k, k < c + 1 ∧ segTag t = natDigits k := by
          intro t ht
          obtain ⟨k, hk1, hk2⟩ := hin t (List.mem_cons_of_mem _ (List.mem_of_mem_filter ht))
          exact ⟨k, by omega, hk2⟩
        obtain ⟨ih1, ih2, ih3⟩ := ih _ (c + 1) hlen hin' hnd'
        have hmtag := segTag_mergeSegments (s :: rest.filter (fun t => areSegmentsSimilar s t)) c
        refine ⟨by omega, ?_, ?_⟩
        · simp only [List.map_cons, List.nodup_cons, hmtag]
          refine ⟨?_, ih2⟩
          intro hmem
          obtain ⟨t, ht, htag⟩ := List.mem_map.mp hmem
          obtain ⟨k, hk1, hk2, hk3⟩ := ih3 t ht
          rcases hk3 with hold | hnew
          · obtain ⟨t2, ht2, htag2⟩ := List.mem_map.mp hold
            obtain ⟨k2, hk21, hk22⟩ :=
              hin t2 (List.mem_cons_of_mem _ (List.mem_of_mem_filter ht2))
            rw [← htag2, hk22] at htag
            have := natDigits_inj _ _ htag
            omega
          · rw [hk2] at htag
            have := natDigits_inj _ _ htag
            omega
        · intro t ht
          rcases List.mem_cons.mp ht with rfl | ht'
          · exact ⟨c, by omega, hmtag, Or.inr le_rfl⟩
          · obtain ⟨k, hk1, hk2, hk3⟩ := ih3 t ht'
            refine ⟨k, hk1, hk2, ?_⟩
            rcases hk3 with hold | hnew
            · refine Or.inl ?_
              obtain ⟨t2, ht2, htag2⟩ := List.mem_map.mp hold
              exact List.mem_map.mpr
                ⟨t2, List.mem_cons_of_mem _ (List.mem_of_mem_filter ht2), htag2⟩
            · exact Or.inr (by omega)

theorem map_segTag_eq_map_id_comp (l : List Segment) :
    l.map segTag = (l.map (·.id)).map (fun idStr => lastUnderscoreToken idStr.data) := by
  rw [List.map_map]
  rfl

theorem nodup_ids_of_nodup_tags {l : List Segment}
    (h : (l.map segTag).Nodup) : (l.map (·.id)).Nodup := by
  rw [map_segTag_eq_map_id_comp] at h
  exact h.of_map _

theorem optimizeSegmentation_tags (segments : List Segment) (c : ℕ)
    (h1 : ∀ s ∈ segments, ∃ k, k < c ∧ segTag s = natDigits k)
    (h2 : (segments.map segTag).Nodup) :
    (((optimizeSegmentation segments c).1).map segTag).Nodup := by
  have hsub : List.Sublist (removeDuplicates segments) segments :=
    removeDuplicatesAux_sublist segments []
  have hdup1 : ∀ s ∈ removeDuplicates segments, ∃ k, k < c ∧ segTag s = natDigits k :=
    fun s hs => h1 s (hsub.mem hs)
  have hdup2 : ((removeDuplicates segments).map segTag).Nodup :=
    (hsub.map segTag).nodup h2
  obtain ⟨_, hm2, _⟩ := mergeSimilar_tags (removeDuplicates segments).length
    (removeDuplicates segments) c le_rfl hdup1 hdup2
  rw [optimizeSegmentation_fst]
  have hperm : List.Perm (sortSegments (mergeSimilarSegments (removeDuplicates segments) c).1)
      (mergeSimilarSegments (removeDuplicates segments) c).1 :=
    List.perm_insertionSort segLE _
  exact ((hperm.map segTag).nodup_iff).mpr hm2

/-- C9: within a single processing run, all segments produced by the
builder (combined, individual and standalone) have pairwise distinct ids,
and so do all segments in the final optimizer output (where merge adds its
`merged_N` ids): every generated id ends in `_` followed by the decimal
value of a strictly increasing process-local counter, and the decimal
numeral after the final underscore determines that counter value. -/
theorem C9_segment_ids_unique (oracle : List CtxGroup → List CtxGroup)
    (slides : List Slide) (c : ℕ) :
    ((generateSegmentationAux oracle slides c).1.map (·.id)).Nodup ∧
    ((generateSegmentation oracle slides c).1.map (·.id)).Nodup := by
  obtain ⟨hb1, hb2, hb3⟩ := generateSegmentationAux_tags oracle slides c
  constructor
  · exact nodup_ids_of_nodup_tags hb2
  · have hred : generateSegmentation oracle slides c =
        optimizeSegmentation (generateSegmentationAux oracle slides c).1
          (generateSegmentationAux oracle slides c).2 := rfl
    rw [hred]
    refine nodup_ids_of_nodup_tags (optimizeSegmentation_tags _ _ ?_ hb2)
    intro s hs
    obtain ⟨k, _, hk2, hk3⟩ := hb3 s hs
    exact ⟨k, hk2, hk3⟩
